import Mathlib

/-!
Verification of the extraction and line-resolution engine of the
kvv-ausfaelle-scraper repository.

The development shallowly embeds the TypeScript sources:
  * `src/parser/patterns.ts` — regex patterns and text markers,
  * `src/parser/text-extraction.ts` — `stripHtml`, `extractLine`, `extractStand`,
  * `src/parser/trip-parsing.ts` — trip segmentation, merging, parsing and
    line resolution,
  * `src/parser/index.ts` — `parseDetailPage`,
  * `src/train-lines.ts` — the train-number knowledge base and its
    digit-truncation fallback,
  * `src/storage.ts` — the deduplicating (year, line) bucket store,
  * `src/utils/normalization.ts` — string normalization helpers.

JavaScript regular expressions are modelled by hand-written matchers that
replay the leftmost-match, greedy/lazy backtracking semantics of the concrete
patterns appearing in the source.  Strings are processed as `List Char`;
JavaScript `Date` rendering is modelled by a pure ISO renderer (local time
zone taken as UTC, no out-of-range date normalization — the modelled values
are only used in determinism arguments and concrete evaluations).  Clock reads
(`new Date()`) are made explicit through a `Clock` parameter, and file-system
state is made explicit (the definition list, resp. an association list of
file contents).
-/

namespace KVV

/-! ## Character classes of the JavaScript regex dialect -/

/-- Model of the JS `\s` class (the members that can occur in this data:
space, tab, newline, carriage return, vertical tab, form feed, NBSP, BOM). -/
def isSpaceJS (c : Char) : Bool :=
  c = ' ' || c = '\t' || c = '\n' || c = '\r' ||
  c = '\x0b' || c = '\x0c' || c = '\u00A0' || c = '\uFEFF'

/-- Model of the JS `.` class: any character except line terminators. -/
def isDotJS (c : Char) : Bool :=
  !(c = '\n' || c = '\r' || c = '\u2028' || c = '\u2029')

/-- Member of the JS `[-–]` class used by the trip grammars. -/
def isDashJS (c : Char) : Bool := c = '-' || c = '–'

/-- Model of the JS `\w` class. -/
def isWordJS (c : Char) : Bool := c.isAlphanum || c = '_'

/-- ASCII letter, the JS `[A-Za-z]` class. -/
def isAlphaJS (c : Char) : Bool := c.isAlpha

/-! ## List-of-characters utilities -/

/-- Maximal run of characters satisfying `p` (the greedy `p*` behaviour). -/
def takeRun (p : Char → Bool) (l : List Char) : List Char × List Char :=
  (l.takeWhile p, l.dropWhile p)

/-- JS `String.prototype.trim`: strip leading and trailing whitespace. -/
def jsTrimL (l : List Char) : List Char :=
  ((l.dropWhile isSpaceJS).reverse.dropWhile isSpaceJS).reverse

/-- JS `trim` on strings. -/
def jsTrim (s : String) : String := String.mk (jsTrimL s.data)

/-- Case-insensitive character comparison (ASCII, as used by the `i` flag). -/
def ciEq (a b : Char) : Bool := a.toLower = b.toLower

/-- Match a literal character sequence at the head of the input, returning the
remainder. -/
def matchLit : List Char → List Char → Option (List Char)
  | [], l => some l
  | _ :: _, [] => none
  | p :: ps, c :: cs => if c = p then matchLit ps cs else none

/-- Case-insensitive variant of `matchLit`. -/
def matchLitCi : List Char → List Char → Option (List Char)
  | [], l => some l
  | _ :: _, [] => none
  | p :: ps, c :: cs => if ciEq c p then matchLitCi ps cs else none

/-- Decide whether `pat` occurs as a contiguous subsequence of `l`
(JS `String.prototype.includes`). -/
def containsSeq (pat : List Char) : List Char → Bool
  | [] => (matchLit pat []).isSome
  | l@(_ :: rest) => (matchLit pat l).isSome || containsSeq pat rest

/-- JS `String.prototype.split(sep)` for a single-character separator. -/
def splitOnCharL (sep : Char) : List Char → List (List Char)
  | [] => [[]]
  | c :: rest =>
    let r := splitOnCharL sep rest
    if c = sep then [] :: r
    else
      match r with
      | [] => [[c]]
      | h :: t => (c :: h) :: t

/-- Numeric value of a digit string (models JS `Number`/`parseInt` on the
digit-only strings produced by the validated captures; `""` maps to `0` as
`Number("")` does). -/
def numValL (l : List Char) : Nat :=
  l.foldl (fun acc c => acc * 10 + (c.toNat - 48)) 0

/-- Numeric reading of a non-empty digit string, `none` otherwise
(char-level equivalent of `String.toNat?`). -/
def toNatDigits? (l : List Char) : Option Nat :=
  if !l.isEmpty && l.all Char.isDigit then some (numValL l) else none

/-- Numeric value of a string, defaulting to 0; used to model JS `parseInt`
based comparators on digit strings. -/
def numKey (s : String) : Nat := (toNatDigits? s.data).getD 0

/-- Uppercase (char-level equivalent of `String.toUpperCase` on the ASCII
identifiers this code handles). -/
def toUpperS (s : String) : String := String.mk (s.data.map Char.toUpper)

/-- Lowercase, model of `String.toLowerCase` on ASCII identifiers. -/
def toLowerS (s : String) : String := String.mk (s.data.map Char.toLower)

/-- JS `slice(0, n)` for a non-negative `n` (character-level; all uses are on
ASCII data where UTF-16 units and characters agree). -/
def jsSlice (s : String) (n : Nat) : String := String.mk (s.data.take n)

/-- JS `String.prototype.startsWith`. -/
def startsWithS (p s : String) : Bool := p.data.isPrefixOf s.data

/-! ## The time sub-pattern `\d{1,2}:\d{2}`

`parse2d` consumes exactly two digits; `parseTimeHM` consumes one or two
digits, a colon and two digits, returning the consumed characters and the
remainder.  The greedy `{1,2}` needs no backtracking: the one-digit and the
two-digit readings are mutually exclusive because a digit and `':'` differ. -/

/-- Consume exactly two digits. -/
def parse2d : List Char → Option (List Char × List Char)
  | c :: d :: rest => if c.isDigit && d.isDigit then some ([c, d], rest) else none
  | _ => none

/-- Consume `\d{1,2}:\d{2}`, returning the matched characters and remainder. -/
def parseTimeHM : List Char → Option (List Char × List Char)
  | a :: ':' :: rest =>
    if a.isDigit then (parse2d rest).map (fun p => ([a, ':'] ++ p.1, p.2)) else none
  | a :: b :: ':' :: rest =>
    if a.isDigit && b.isDigit then
      (parse2d rest).map (fun p => ([a, b, ':'] ++ p.1, p.2))
    else none
  | _ => none

/-! ## The optional `(?:\s*Uhr)?` group

The group is greedy: first try to consume maximal whitespace followed by the
literal `Uhr` and run the continuation; if the continuation (or the group)
fails, rerun the continuation on the unconsumed input.  Inside the group only
the maximal whitespace run can precede `Uhr`, so no further backtracking is
needed. -/

def optUhr {α : Type} (k : List Char → Option α) (l : List Char) : Option α :=
  match (takeRun isSpaceJS l).2 with
  | 'U' :: 'h' :: 'r' :: rest =>
    match k rest with
    | some out => some out
    | none => k l
  | _ => k l

/-! ## The final `\s+(.+)` of the new trip grammar

Greedy `\s+` followed by greedy `(.+)`; since `.` also matches a space, a
failing `(.+)` forces the space run to give characters back, longest run
first. -/

def stopAfterSpaces : List Char → Option (List Char)
  | [] => none
  | c :: rest =>
    if isSpaceJS c then
      match stopAfterSpaces rest with
      | some s => some s
      | none =>
        if isDotJS c then some (c :: (takeRun isDotJS rest).1) else none
    else if isDotJS c then some (c :: (takeRun isDotJS rest).1)
    else none

def finalStop : List Char → Option (List Char)
  | [] => none
  | c :: rest => if isSpaceJS c then stopAfterSpaces rest else none

/-! ## Tail of the new trip grammar

`\s*[-–]+\s*(\d{1,2}:\d{2})(?:\s*Uhr)?\s+(.+)` — returns the second time
capture and the destination-stop capture. -/

def tailNew (l : List Char) : Option (List Char × List Char) :=
  let r₁ := (takeRun isSpaceJS l).2
  let dashes := (takeRun isDashJS r₁).1
  let r₂ := (takeRun isDashJS r₁).2
  if dashes.isEmpty then none
  else
    let r₃ := (takeRun isSpaceJS r₂).2
    match parseTimeHM r₃ with
    | none => none
    | some (t2, r₄) =>
      (optUhr finalStop r₄).map (fun stop => (t2, stop))

/-- Lazy `(.+?)` of the new grammar: extend the capture one character at a
time (shortest first) until `tailNew` matches the remainder. -/
def lazyFromStopNew (acc : List Char) :
    List Char → Option (List Char × List Char × List Char)
  | [] => none
  | c :: rest =>
    if isDotJS c then
      let acc' := acc ++ [c]
      match tailNew rest with
      | some (t2, stop) => some (acc', t2, stop)
      | none => lazyFromStopNew acc' rest
    else none

/-- Greedy `\s+` in front of the lazy from-stop capture: longest space run
first, shrinking (the lazy capture may itself swallow spaces). -/
def newFromAfterSpaces : List Char → Option (List Char × List Char × List Char)
  | [] => none
  | c :: rest =>
    if isSpaceJS c then
      match newFromAfterSpaces rest with
      | some out => some out
      | none => lazyFromStopNew [] (c :: rest)
    else lazyFromStopNew [] (c :: rest)

def newFromSection : List Char → Option (List Char × List Char × List Char)
  | [] => none
  | c :: rest => if isSpaceJS c then newFromAfterSpaces rest else none

/-- Captures of a trip grammar match (field names follow the source). -/
structure TripCaps where
  trainNumber : String
  fromStop : String
  fromTime : String
  toStop : String
  toTime : String
deriving DecidableEq, Repr

/-- Model of `PATTERNS.TRIP_NEW_FORMAT`
(`/^(\d+)\s+(\d{1,2}:\d{2})(?:\s*Uhr)?\s+(.+?)\s*[-–]+\s*(\d{1,2}:\d{2})(?:\s*Uhr)?\s+(.+)/`)
applied via `String.prototype.match`. -/
def matchTripNewFormat (s : String) : Option TripCaps :=
  let l := s.data
  let digits := (takeRun Char.isDigit l).1
  let r₁ := (takeRun Char.isDigit l).2
  if digits.isEmpty then none
  else
    let sp := (takeRun isSpaceJS r₁).1
    let r₂ := (takeRun isSpaceJS r₁).2
    if sp.isEmpty then none
    else
      match parseTimeHM r₂ with
      | none => none
      | some (t1, r₃) =>
        (optUhr newFromSection r₃).map (fun out =>
          ⟨String.mk digits, String.mk out.1, String.mk t1,
           String.mk out.2.2, String.mk out.2.1⟩)

/-! ## The old trip grammar

`/^(\d+)\s+(.+?)\s+\((\d{1,2}:\d{2})(?:\s*Uhr)?\)\s*[-–]+\s*(.+?)\s+\((\d{1,2}:\d{2})(?:\s*Uhr)?\)/` -/

/-- Expect a closing parenthesis. -/
def closeParen : List Char → Option (List Char)
  | ')' :: r => some r
  | _ => none

/-- Match `\((\d{1,2}:\d{2})(?:\s*Uhr)?\)`; the with-`Uhr` and without-`Uhr`
closings are mutually exclusive, so committing to the greedy group is safe. -/
def parenTime : List Char → Option (List Char × List Char)
  | '(' :: r =>
    match parseTimeHM r with
    | some (t, r₂) =>
      let withUhr : Option (List Char) :=
        match (takeRun isSpaceJS r₂).2 with
        | 'U' :: 'h' :: 'r' :: r₃ => closeParen r₃
        | _ => none
      match withUhr with
      | some rest => some (t, rest)
      | none => (closeParen r₂).map (fun rest => (t, rest))
    | none => none
  | _ => none

/-- Match `\s+\(` followed by a parenthesised time. -/
def spaceThenParenTime (l : List Char) : Option (List Char × List Char) :=
  let sp := (takeRun isSpaceJS l).1
  let r := (takeRun isSpaceJS l).2
  if sp.isEmpty then none else parenTime r

/-- Lazy `(.+?)` for the destination stop of the old grammar. -/
def lazyToStopOld (acc : List Char) : List Char → Option (List Char × List Char)
  | [] => none
  | c :: rest =>
    if isDotJS c then
      let acc' := acc ++ [c]
      match spaceThenParenTime rest with
      | some (t2, _) => some (acc', t2)
      | none => lazyToStopOld acc' rest
    else none

/-- After the first parenthesised time: `\s*[-–]+\s*` then the lazy
destination stop. -/
def oldAfterFirstParen (l : List Char) : Option (List Char × List Char) :=
  let r₁ := (takeRun isSpaceJS l).2
  let dashes := (takeRun isDashJS r₁).1
  let r₂ := (takeRun isDashJS r₁).2
  if dashes.isEmpty then none
  else lazyToStopOld [] (takeRun isSpaceJS r₂).2

/-- Lazy `(.+?)` for the origin stop of the old grammar: at each split try the
whole remaining pattern; on failure extend the capture. -/
def lazyFromStopOld (acc : List Char) :
    List Char → Option (List Char × List Char × List Char × List Char)
  | [] => none
  | c :: rest =>
    if isDotJS c then
      let acc' := acc ++ [c]
      match spaceThenParenTime rest with
      | some (t1, r) =>
        match oldAfterFirstParen r with
        | some (toStop, t2) => some (acc', t1, toStop, t2)
        | none => lazyFromStopOld acc' rest
      | none => lazyFromStopOld acc' rest
    else none

/-- Greedy `\s+` in front of the old grammar's lazy origin stop. -/
def oldFromAfterSpaces :
    List Char → Option (List Char × List Char × List Char × List Char)
  | [] => none
  | c :: rest =>
    if isSpaceJS c then
      match oldFromAfterSpaces rest with
      | some out => some out
      | none => lazyFromStopOld [] (c :: rest)
    else lazyFromStopOld [] (c :: rest)

/-- Model of `PATTERNS.TRIP_OLD_FORMAT` applied via `String.prototype.match`. -/
def matchTripOldFormat (s : String) : Option TripCaps :=
  let l := s.data
  let digits := (takeRun Char.isDigit l).1
  let r₁ := (takeRun Char.isDigit l).2
  if digits.isEmpty then none
  else
    match r₁ with
    | [] => none
    | c :: rest =>
      if isSpaceJS c then
        (oldFromAfterSpaces rest).map (fun out =>
          ⟨String.mk digits, String.mk out.1, String.mk out.2.1,
           String.mk out.2.2.1, String.mk out.2.2.2⟩)
      else none

/-! ## Trip-line validation (`trip-parsing.ts`) -/

/-- The `DEFAULT_LINE` placeholder of `patterns.ts`. -/
def DEFAULT_LINE : String := "UNKNOWN"

/-- Model of `isValidTripLine` from `trip-parsing.ts`: a new-format match
whose stop captures do not trim to the bare word `Uhr`, or otherwise an
old-format match. -/
def isValidTripLine (line : String) : Bool :=
  match matchTripNewFormat line with
  | some caps =>
    if jsTrim caps.toStop ≠ "Uhr" && jsTrim caps.fromStop ≠ "Uhr" then true
    else (matchTripOldFormat line).isSome
  | none => (matchTripOldFormat line).isSome

/-- Model of `isValidTripFields` for the new format: all captures present
(non-empty) and neither stop trims to `Uhr`. -/
def isValidTripFieldsNew (c : TripCaps) : Bool :=
  c.trainNumber ≠ "" && c.fromStop ≠ "" && c.fromTime ≠ "" &&
  c.toStop ≠ "" && c.toTime ≠ "" &&
  jsTrim c.toStop ≠ "Uhr" && jsTrim c.fromStop ≠ "Uhr"

/-- Model of `isValidTripFields` for the old format: all captures present. -/
def isValidTripFieldsOld (c : TripCaps) : Bool :=
  c.trainNumber ≠ "" && c.fromStop ≠ "" && c.fromTime ≠ "" &&
  c.toStop ≠ "" && c.toTime ≠ ""

/-- The grammar-and-validation portion of `parseTripLine`
(`trip-parsing.ts` lines 270–302): try the new format, falling through to
the old format when the new match is absent or field-invalid. -/
def tripFields (line : String) : Option TripCaps :=
  match matchTripNewFormat line with
  | some c =>
    if isValidTripFieldsNew c then some c
    else
      match matchTripOldFormat line with
      | some c' => if isValidTripFieldsOld c' then some c' else none
      | none => none
  | none =>
    match matchTripOldFormat line with
    | some c' => if isValidTripFieldsOld c' then some c' else none
    | none => none

/-! ## Line extraction (`PATTERNS.LINE`, `text-extraction.ts`)

`/Linien?\s+([A-Za-z]+[0-9][A-Za-z0-9-]*)/i`, searched leftmost. -/

/-- Trailing `[A-Za-z0-9-]*` class. -/
def isLineTailChar (c : Char) : Bool := c.isAlphanum || c = '-'

/-- Continuation after `Linie` / `Linien`: `\s+[A-Za-z]+[0-9][A-Za-z0-9-]*`. -/
def lineCaptureAfter (l : List Char) : Option (List Char) :=
  let sp := (takeRun isSpaceJS l).1
  let r := (takeRun isSpaceJS l).2
  if sp.isEmpty then none
  else
    let letters := (takeRun isAlphaJS r).1
    let r₂ := (takeRun isAlphaJS r).2
    if letters.isEmpty then none
    else
      match r₂ with
      | d :: r₃ =>
        if d.isDigit then some (letters ++ [d] ++ (takeRun isLineTailChar r₃).1)
        else none
      | [] => none

/-- Try the `LINE` pattern anchored at the current position (greedy optional
`n` first, with full-continuation backtracking). -/
def tryLineAt (l : List Char) : Option (List Char) :=
  match matchLitCi "Linie".data l with
  | none => none
  | some r =>
    let withN : Option (List Char) :=
      match r with
      | c :: r' => if ciEq c 'n' then lineCaptureAfter r' else none
      | [] => none
    match withN with
    | some cap => some cap
    | none => lineCaptureAfter r

/-- Leftmost search for the `LINE` pattern. -/
def searchLine : List Char → Option (List Char)
  | [] => none
  | l@(_ :: rest) =>
    match tryLineAt l with
    | some cap => some cap
    | none => searchLine rest

/-- Model of `extractLine` (`text-extraction.ts`): uppercase first capture, or
`DEFAULT_LINE`. -/
def extractLine (text : String) : String :=
  match searchLine text.data with
  | some cap => toUpperS (String.mk cap)
  | none => DEFAULT_LINE

/-! ## Ambiguity patterns (`patterns.ts`) -/

/-- Test of `MULTI_LINE_HINT_PATTERN` (`/\bund\b|,|\/|&/i`): scan all
positions, tracking the previous character for the word boundaries. -/
def hintScan (prev : Option Char) : List Char → Bool
  | [] => false
  | c :: rest =>
    if c = ',' || c = '/' || c = '&' then true
    else
      let boundaryBefore : Bool :=
        match prev with
        | none => true
        | some p => !isWordJS p
      let undHere : Bool :=
        boundaryBefore &&
        (match c :: rest with
         | u :: n :: d :: r =>
           ciEq u 'u' && ciEq n 'n' && ciEq d 'd' &&
           (match r with
            | [] => true
            | nx :: _ => !isWordJS nx)
         | _ => false)
      undHere || hintScan (some c) rest

/-- Model of `MULTI_LINE_HINT_PATTERN.test`. -/
def multiLineHintTest (s : String) : Bool := hintScan none s.data

/-- One anchored attempt of `MULTI_LINE_RANGE_PATTERN`
(`/[A-Za-z]+\d+\s*-\s*[A-Za-z]*\d+/`). -/
def rangeAt (l : List Char) : Bool :=
  let letters := (takeRun isAlphaJS l).1
  let r₁ := (takeRun isAlphaJS l).2
  if letters.isEmpty then false
  else
    let digits := (takeRun Char.isDigit r₁).1
    let r₂ := (takeRun Char.isDigit r₁).2
    if digits.isEmpty then false
    else
      match (takeRun isSpaceJS r₂).2 with
      | '-' :: r₃ =>
        let r₄ := (takeRun isSpaceJS r₃).2
        let r₅ := (takeRun isAlphaJS r₄).2
        !((takeRun Char.isDigit r₅).1.isEmpty)
      | _ => false

/-- Model of `MULTI_LINE_RANGE_PATTERN.test`: search any position. -/
def rangeScan : List Char → Bool
  | [] => false
  | l@(_ :: rest) => rangeAt l || rangeScan rest

def multiLineRangeTest (s : String) : Bool := rangeScan s.data

/-! ## Mentioned-lines extraction (`LINE_MENTION_SECTION_PATTERN`,
`LINE_IDENTIFIER_PATTERN`, `trip-parsing.ts`) -/

/-- Section character class `[^.\n]`. -/
def isSectionChar (c : Char) : Bool := !(c = '.' || c = '\n')

/-- Greedy `\s+([^.\n]+)` with space-run give-back (a failing capture forces
the space run to shrink, longest first). -/
def mentionCaptureGo : List Char → Option (List Char × List Char)
  | [] => none
  | c :: rest =>
    if isSpaceJS c then
      match mentionCaptureGo rest with
      | some out => some out
      | none =>
        if isSectionChar c then
          some (c :: (takeRun isSectionChar rest).1, (takeRun isSectionChar rest).2)
        else none
    else if isSectionChar c then
      some (c :: (takeRun isSectionChar rest).1, (takeRun isSectionChar rest).2)
    else none

def mentionCapture : List Char → Option (List Char × List Char)
  | [] => none
  | c :: rest => if isSpaceJS c then mentionCaptureGo rest else none

/-- One anchored attempt of `LINE_MENTION_SECTION_PATTERN`
(`/Linien?\s+([^.\n]+)/gi`), returning the section capture and the remainder
after the match. -/
def tryMentionAt (l : List Char) : Option (List Char × List Char) :=
  match matchLitCi "Linie".data l with
  | none => none
  | some r =>
    let withN : Option (List Char × List Char) :=
      match r with
      | c :: r' => if ciEq c 'n' then mentionCapture r' else none
      | [] => none
    match withN with
    | some out => some out
    | none => mentionCapture r

/-- Global scan of the mention-section pattern (fuelled by the input length;
each match consumes at least one character). -/
def mentionScanGo : Nat → List Char → List (List Char)
  | 0, _ => []
  | _, [] => []
  | fuel + 1, l@(_ :: rest) =>
    match tryMentionAt l with
    | some (sec, r) => sec :: mentionScanGo fuel r
    | none => mentionScanGo fuel rest

def mentionScan (l : List Char) : List (List Char) := mentionScanGo l.length l

/-- One anchored attempt of `LINE_IDENTIFIER_PATTERN`
(`/\b[A-Za-z]+\d{1,3}\b/g`): maximal letters, then a digit run of length 1–3
that is followed by a non-word character (or the end). -/
def tokenAt (l : List Char) : Option (List Char × List Char) :=
  let letters := (takeRun isAlphaJS l).1
  let r₁ := (takeRun isAlphaJS l).2
  if letters.isEmpty then none
  else
    let digits := (takeRun Char.isDigit r₁).1
    let r₂ := (takeRun Char.isDigit r₁).2
    if digits.length = 0 || digits.length > 3 then none
    else
      match r₂ with
      | [] => some (letters ++ digits, [])
      | nx :: _ => if isWordJS nx then none else some (letters ++ digits, r₂)

/-- Global token scan with word-boundary tracking (fuelled). -/
def tokenScanGo : Nat → Option Char → List Char → List (List Char)
  | 0, _, _ => []
  | _, _, [] => []
  | fuel + 1, prev, l@(c :: rest) =>
    let boundary : Bool :=
      match prev with
      | none => true
      | some p => !isWordJS p
    if boundary then
      match tokenAt l with
      | some (tok, r) => tok :: tokenScanGo fuel (some '0') r
      | none => tokenScanGo fuel (some c) rest
    else tokenScanGo fuel (some c) rest

def tokenScan (l : List Char) : List (List Char) := tokenScanGo l.length none l

/-- Insertion-ordered deduplication (JS `Set` then `Array.from`). -/
def dedupKeepFirstGo (seen : List String) : List String → List String
  | [] => []
  | s :: rest =>
    if seen.contains s then dedupKeepFirstGo seen rest
    else s :: dedupKeepFirstGo (seen ++ [s]) rest

def dedupKeepFirst (l : List String) : List String := dedupKeepFirstGo [] l

/-- Model of `extractMentionedLines` (`trip-parsing.ts`): uppercased line
identifiers from all mention sections, first occurrence kept. -/
def extractMentionedLines (text : String) : List String :=
  dedupKeepFirst
    ((mentionScan text.data).flatMap (fun sec =>
      (tokenScan sec).map (fun tok => toUpperS (String.mk tok))))

/-! ## Stand extraction (`PATTERNS.STAND`, `PATTERNS.STAND_ALT`,
`text-extraction.ts`)

Both matchers return the raw `DD.MM.YYYY` date capture and the time capture;
the fixed shape of the captures is what later proves the current-year default
of `parseGermanDateTime` unreachable. -/

/-- The date sub-pattern `\d{2}\.\d{2}\.\d{4}` shared by both stand
formats: returns the ten matched characters and the remainder. -/
def parseDate10 (l : List Char) : Option (List Char × List Char) :=
  match l with
  | a :: b :: '.' :: c :: d :: '.' :: e :: f :: g :: h :: r =>
    if a.isDigit && b.isDigit && c.isDigit && d.isDigit &&
       e.isDigit && f.isDigit && g.isDigit && h.isDigit then
      some ([a, b, '.', c, d, '.', e, f, g, h], r)
    else none
  | _ => none

/-- Anchored attempt of
`/Nach aktuellem Stand\s+(\d{2}\.\d{2}\.\d{4})\s+(\d{2}:\d{2}:\d{2})/`. -/
def tryStandAt (l : List Char) : Option (List Char × List Char) :=
  match matchLit "Nach aktuellem Stand".data l with
  | none => none
  | some r =>
    let sp := (takeRun isSpaceJS r).1
    let r₁ := (takeRun isSpaceJS r).2
    if sp.isEmpty then none
    else
      match parseDate10 r₁ with
      | none => none
      | some (dc, r₂) =>
        let sp₂ := (takeRun isSpaceJS r₂).1
        let r₃ := (takeRun isSpaceJS r₂).2
        if sp₂.isEmpty then none
        else
          match r₃ with
          | p :: q :: ':' :: u :: v :: ':' :: w :: x :: _ =>
            if p.isDigit && q.isDigit && u.isDigit && v.isDigit &&
               w.isDigit && x.isDigit then
              some (dc, [p, q, ':', u, v, ':', w, x])
            else none
          | _ => none

/-- Leftmost search for the `STAND` pattern. -/
def searchStand : List Char → Option (List Char × List Char)
  | [] => none
  | l@(_ :: rest) =>
    match tryStandAt l with
    | some out => some out
    | none => searchStand rest

/-- Anchored attempt of `/(\d{2}\.\d{2}\.\d{4}),\s*(\d{2}:\d{2})\s*Uhr/`. -/
def tryStandAltAt (l : List Char) : Option (List Char × List Char) :=
  match parseDate10 l with
  | some (dc, ',' :: r) =>
    let r₁ := (takeRun isSpaceJS r).2
    match r₁ with
    | p :: q :: ':' :: u :: v :: r₂ =>
      if p.isDigit && q.isDigit && u.isDigit && v.isDigit then
        match (takeRun isSpaceJS r₂).2 with
        | 'U' :: 'h' :: 'r' :: _ => some (dc, [p, q, ':', u, v])
        | _ => none
      else none
    | _ => none
  | _ => none

/-- Leftmost search for the `STAND_ALT` pattern. -/
def searchStandAlt : List Char → Option (List Char × List Char)
  | [] => none
  | l@(_ :: rest) =>
    match tryStandAltAt l with
    | some out => some out
    | none => searchStandAlt rest

/-! ## Clock and date rendering -/

/-- Explicit model of the process clock: `nowIso` models
`new Date().toISOString()` and `nowYear` models `new Date().getFullYear()`
(the source reads the clock afresh at each call; one value per run is enough
for the determinism statements proved here). -/
structure Clock where
  nowIso : String
  nowYear : Nat
deriving DecidableEq, Repr

/-- Left-pad a numeral to two digits. -/
def pad2 (n : Nat) : String := if n < 10 then "0" ++ toString n else toString n

/-- Left-pad a numeral to four digits. -/
def pad4 (n : Nat) : String :=
  if n < 10 then "000" ++ toString n
  else if n < 100 then "00" ++ toString n
  else if n < 1000 then "0" ++ toString n
  else toString n

/-- Render an ISO timestamp from components.  Models
`new Date(year, month - 1, day, hh, mm, ss).toISOString()` with the local
time zone taken as UTC and without JS date normalization of out-of-range
components (the sources only feed it regex-validated in-range components,
and the modelled value is used only in determinism arguments and concrete
evaluations). -/
def renderIso (year month day hh mm ss : Nat) : String :=
  pad4 year ++ "-" ++ pad2 month ++ "-" ++ pad2 day ++ "T" ++
  pad2 hh ++ ":" ++ pad2 mm ++ ":" ++ pad2 ss ++ ".000Z"

/-- Model of `parseGermanDateTime` (`text-extraction.ts`): split the date on
`.` and the time on `:`, with the source's defaults — day/month default to 1,
the year defaults to the current year (`clock.nowYear`), time parts default
to 0. -/
def parseGermanDateTime (clock : Clock) (dateStr timeStr : String) : String :=
  let dateParts := (splitOnCharL '.' dateStr.data).map numValL
  let timeParts := (splitOnCharL ':' timeStr.data).map numValL
  let day := (dateParts.get? 0).getD 1
  let month := (dateParts.get? 1).getD 1
  let year := (dateParts.get? 2).getD clock.nowYear
  let hh := (timeParts.get? 0).getD 0
  let mm := (timeParts.get? 1).getD 0
  let ss := (timeParts.get? 2).getD 0
  renderIso year month day hh mm ss

/-- Result of `extractStand`. -/
structure StandInfo where
  standIso : String
  dateForTrips : String
deriving DecidableEq, Repr

/-- Model of `extractStand` (`text-extraction.ts`): primary format, then the
alternative format with `":00"` seconds appended, then the current time. -/
def extractStand (clock : Clock) (text : String) : StandInfo :=
  match searchStand text.data with
  | some (dc, tc) =>
    let standIso := parseGermanDateTime clock (String.mk dc) (String.mk tc)
    ⟨standIso, jsSlice standIso 10⟩
  | none =>
    match searchStandAlt text.data with
    | some (dc, tc) =>
      let standIso :=
        parseGermanDateTime clock (String.mk dc) (String.mk tc ++ ":00")
      ⟨standIso, jsSlice standIso 10⟩
    | none => ⟨clock.nowIso, jsSlice clock.nowIso 10⟩

/-- The article declares a parsable status timestamp (either stand format
matches), i.e. `extractStand` does not fall back to the current time. -/
def standDeclared (text : String) : Bool :=
  (searchStand text.data).isSome || (searchStandAlt text.data).isSome

/-! ## `stripHtml` (`text-extraction.ts`)

Four successive global regex replacements followed by `trim`:
`/<br\s*\/?\s*>/gi → '\n'`, `/<\/p>/gi → '\n'`, `/<[^>]+>/g → ''`,
`/\r/g → ''`. -/

/-- Anchored attempt of `<br\s*\/?\s*>` (case-insensitive `br`), returning
the remainder; the optional `/` admits no further backtracking because a
space run is maximal and `/` is not a space. -/
def tryBrAt (l : List Char) : Option (List Char) :=
  match l with
  | '<' :: c :: d :: r =>
    if ciEq c 'b' && ciEq d 'r' then
      let r₁ := (takeRun isSpaceJS r).2
      match r₁ with
      | '/' :: r₂ =>
        (match (takeRun isSpaceJS r₂).2 with
         | '>' :: rest => some rest
         | _ => none)
      | '>' :: rest => some rest
      | _ => none
    else none
  | _ => none

/-- Global replacement of `<br...>` by a newline (fuelled scan). -/
def replaceBrGo : Nat → List Char → List Char
  | 0, l => l
  | _, [] => []
  | fuel + 1, l@(c :: rest) =>
    match tryBrAt l with
    | some r => '\n' :: replaceBrGo fuel r
    | none => c :: replaceBrGo fuel rest

/-- Anchored attempt of `<\/p>` (case-insensitive `p`). -/
def tryPCloseAt (l : List Char) : Option (List Char) :=
  match l with
  | '<' :: '/' :: c :: '>' :: rest => if ciEq c 'p' then some rest else none
  | _ => none

def replacePCloseGo : Nat → List Char → List Char
  | 0, l => l
  | _, [] => []
  | fuel + 1, l@(c :: rest) =>
    match tryPCloseAt l with
    | some r => '\n' :: replacePCloseGo fuel r
    | none => c :: replacePCloseGo fuel rest

/-- Anchored attempt of `<[^>]+>`: at `<`, a maximal non-`>` run of length at
least one followed by `>`. -/
def tryTagAt (l : List Char) : Option (List Char) :=
  match l with
  | '<' :: r =>
    let body := (takeRun (fun c => c ≠ '>') r).1
    match (takeRun (fun c => c ≠ '>') r).2 with
    | '>' :: rest => if body.isEmpty then none else some rest
    | _ => none
  | _ => none

def replaceTagGo : Nat → List Char → List Char
  | 0, l => l
  | _, [] => []
  | fuel + 1, l@(c :: rest) =>
    match tryTagAt l with
    | some r => replaceTagGo fuel r
    | none => c :: replaceTagGo fuel rest

/-- Model of `stripHtml` (`text-extraction.ts`). -/
def stripHtml (html : String) : String :=
  let l₁ := replaceBrGo html.data.length html.data
  let l₂ := replacePCloseGo l₁.length l₁
  let l₃ := replaceTagGo l₂.length l₂
  let l₄ := l₃.filter (fun c => c ≠ '\r')
  String.mk (jsTrimL l₄)

/-! ## Markers (`MARKERS`, `patterns.ts`) and the marker regex of
`extractTripLines`

Each start marker is turned into a regex by escaping it and replacing space
runs by `\s+`; this is modelled by matching the marker's space-free chunks
separated by non-empty whitespace runs. -/

def MARKERS_TRIPS_START : List String :=
  ["sind folgende Fahrten von einem (Teil-)Ausfall betroffen:",
   "sind folgende Fahrten betroffen:",
   "Betroffene Fahrten:"]

def MARKERS_TRIPS_END : String := "Ob deine Verbindung"

/-- Split a marker into its space-separated chunks. -/
def markerChunks (marker : String) : List (List Char) :=
  (splitOnCharL ' ' marker.data).filter (fun c => !c.isEmpty)

/-- Match the chunk sequence at the current position, chunks separated by
`\s+` (maximal runs suffice: chunks never start with whitespace). -/
def matchChunksAt : List (List Char) → List Char → Option (List Char)
  | [], l => some l
  | [ch], l => matchLit ch l
  | ch :: ch' :: more, l =>
    match matchLit ch l with
    | none => none
    | some r =>
      let sp := (takeRun isSpaceJS r).1
      let r₁ := (takeRun isSpaceJS r).2
      if sp.isEmpty then none else matchChunksAt (ch' :: more) r₁

/-- Leftmost search for a whitespace-tolerant marker; returns the text after
the match (`text.slice(match.index + match[0].length)`). -/
def searchMarker (chunks : List (List Char)) : List Char → Option (List Char)
  | [] => matchChunksAt chunks []
  | l@(_ :: rest) =>
    match matchChunksAt chunks l with
    | some r => some r
    | none => searchMarker chunks rest

/-! ## Candidate lines and merging (`trip-parsing.ts`) -/

/-- Global case-insensitive replacement of the literal `&nbsp;` by a space. -/
def replaceNbspGo : Nat → List Char → List Char
  | 0, l => l
  | _, [] => []
  | fuel + 1, l@(c :: rest) =>
    match matchLitCi "&nbsp;".data l with
    | some r => ' ' :: replaceNbspGo fuel r
    | none => c :: replaceNbspGo fuel rest

/-- Model of `buildTripCandidateLines`: split on newlines, replace `&nbsp;`
and NBSP by spaces, trim, and drop noise lines. -/
def buildTripCandidateLines (text : String) : List String :=
  ((splitOnCharL '\n' text.data).map (fun line =>
      jsTrim (String.mk
        ((replaceNbspGo line.length line).map (fun c => if c = ' ' then ' ' else c)))))
    |>.filter (fun line =>
      if line = "" then false
      else if startsWithS MARKERS_TRIPS_END line then false
      else if startsWithS "(Zug wird" line then false
      else if line = "&nbsp;" then false
      else if containsSeq "in Richtung".data line.data &&
              containsSeq "eingesetzt)".data line.data then false
      else true)

/-- The `MAX_LINES_TO_COMBINE` constant (`utils/constants.ts`). -/
def MAX_LINES_TO_COMBINE : Nat := 3

/-- Loop body of `tryMergeWithNext`: `rest` holds the lines after the start
line, `offset` is the 1-based lookahead position, `budget` the remaining
lookahead (initially `MAX_LINES_TO_COMBINE`).  Each step appends the next
line (space-joined, trimmed) and tests the grammar. -/
def tryMergeGo (combined : String) (offset : Nat) :
    Nat → List String → Option (String × Nat)
  | 0, _ => none
  | _, [] => none
  | budget + 1, next :: rest =>
    let combined' := jsTrim (combined ++ " " ++ next)
    if isValidTripLine combined' then some (combined', offset + 1)
    else tryMergeGo combined' (offset + 1) budget rest

/-- Model of `tryMergeWithNext` at start index 0 of the given suffix:
returns the first grammar-valid combination and the number of consumed
lines. -/
def tryMergeWithNext : List String → Option (String × Nat)
  | [] => none
  | current :: rest => tryMergeGo current 1 MAX_LINES_TO_COMBINE rest

/-- Fuelled loop of `mergeTripLines`; the fuel is the number of remaining
iterations (each iteration consumes at least one line, so the initial line
count suffices). -/
def mergeGo : Nat → List String → List String
  | 0, _ => []
  | _, [] => []
  | fuel + 1, current :: rest =>
    if isValidTripLine current then current :: mergeGo fuel rest
    else
      match tryMergeWithNext (current :: rest) with
      | some (combined, consumed) =>
        combined :: mergeGo fuel ((current :: rest).drop consumed)
      | none => mergeGo fuel rest

/-- Model of `mergeTripLines` (`trip-parsing.ts`): keep grammar-valid lines,
merge invalid ones with up to `MAX_LINES_TO_COMBINE` following lines, drop
lines admitting no valid combination. -/
def mergeTripLines (rawLines : List String) : List String :=
  mergeGo rawLines.length rawLines

/-- Inner `parseFromSection` helper of `extractTripLines`. -/
def parseFromSection (sec : List Char) : List String :=
  let rawLines := buildTripCandidateLines (String.mk sec)
  if rawLines.isEmpty then [] else mergeTripLines rawLines

/-- Marker loop of `extractTripLines`. -/
def tryMarkersGo (text : List Char) : List String → List String
  | [] => parseFromSection text
  | marker :: more =>
    match searchMarker (markerChunks marker) text with
    | some afterMarker =>
      let merged := parseFromSection afterMarker
      if merged.isEmpty then tryMarkersGo text more else merged
    | none => tryMarkersGo text more

/-- Model of `extractTripLines` (`trip-parsing.ts`): try each start marker;
use the first marker whose section yields merged lines; otherwise scan the
whole text. -/
def extractTripLines (text : String) : List String :=
  tryMarkersGo text.data MARKERS_TRIPS_START

/-! ## Normalization (`utils/normalization.ts`) -/

/-- Model of `normalizeLine`: trim, empty becomes `none`. -/
def normalizeLine (line : String) : Option String :=
  let t := jsTrim line
  if t = "" then none else some t

/-- Model of `normalizeLineUppercase`. -/
def normalizeLineUppercase (line : String) : Option String :=
  let t := jsTrim line
  if t = "" then none else some (toUpperS t)

/-- Model of `normalizeLines`: trim, uppercase, drop empties. -/
def normalizeLines (lines : List String) : List String :=
  lines.filterMap normalizeLineUppercase

/-! ## The train-line knowledge base (`train-lines.ts`)

The persisted per-line definition files are modelled by the loaded definition
list itself; `addTrainNumberToLineDefinition` (which writes
`<line lowercased>.json` for the current Fahrplan year) is modelled as the
corresponding update of that list, matching the definition by
case-insensitive line identifier.  The `TRAIN_LINE_MAPPING` object is an
insertion-ordered association list, and `Object.keys` enumeration replays the
JS property order (canonical array-index keys ascending first, then the rest
in insertion order). -/

/-- Model of `TrainLineDefinition` (`train-line-definitions/types.ts`). -/
structure TrainLineDefinition where
  line : String
  trainNumbers : List String
  connectedLines : Option (List String) := none
deriving DecidableEq, Repr

/-- Model of `TrainLineMappingEntry`. -/
structure TrainLineMappingEntry where
  primaryLine : String
  lines : List String
deriving DecidableEq, Repr

/-- The mapping object: insertion-ordered association list. -/
abbrev TrainLineMapping := List (String × TrainLineMappingEntry)

/-- Property access `map[trainNumber]`. -/
def findEntry (m : TrainLineMapping) (k : String) : Option TrainLineMappingEntry :=
  (m.find? (fun p => p.1 = k)).map (·.2)

/-- In-place update of the entry stored at an existing key. -/
def setEntry (m : TrainLineMapping) (k : String) (e : TrainLineMappingEntry) :
    TrainLineMapping :=
  m.map (fun p => if p.1 = k then (p.1, e) else p)

/-- One step of `buildTrainLineMapping`'s inner loop: register `line` for
`trainNumber` (new key, known line, or appended line). -/
def insertTrainNumber (m : TrainLineMapping) (line trainNumber : String) :
    TrainLineMapping :=
  match findEntry m trainNumber with
  | none => m ++ [(trainNumber, ⟨line, [line]⟩)]
  | some e =>
    if line ∈ e.lines then m
    else setEntry m trainNumber ⟨e.primaryLine, e.lines ++ [line]⟩

/-- Model of `buildTrainLineMapping` (`train-lines.ts`): fold all definitions
and their train numbers into the mapping.  The function is total: duplicate
declarations are recorded, never rejected. -/
def buildTrainLineMapping (definitions : List TrainLineDefinition) :
    TrainLineMapping :=
  definitions.foldl
    (fun m d => d.trainNumbers.foldl (fun m' tn => insertTrainNumber m' d.line tn) m)
    []

/-- Canonical array-index property key (decimal numeral without leading
zeros, value below `2^32 - 1`): such keys enumerate first, in ascending
numeric order. -/
def isArrayIndexKey (s : String) : Bool :=
  match toNatDigits? s.data with
  | some n =>
    (s = "0" || (s.data.head?.getD '0') ≠ '0') && n < 4294967295
  | none => false

/-- Stable insertion by a boolean `a ≤ b` comparator; models any stable sort
(JS `Array.prototype.sort` is stable) with a consistent comparator. -/
def insortBy {α : Type} (le : α → α → Bool) (x : α) : List α → List α
  | [] => [x]
  | y :: ys => if le x y then x :: y :: ys else y :: insortBy le x ys

/-- Stable sort by a boolean comparator. -/
def sortBy {α : Type} (le : α → α → Bool) (l : List α) : List α :=
  l.foldr (insortBy le) []

/-- Model of `Object.keys` for the mapping object: array-index keys first in
ascending numeric order, then the remaining keys in insertion order. -/
def jsObjectKeys (m : TrainLineMapping) : List String :=
  let ks := m.map (·.1)
  sortBy (fun a b => numKey a ≤ numKey b) (ks.filter isArrayIndexKey) ++
    ks.filter (fun k => !isArrayIndexKey k)

/-- JS `slice(0, -1)`: drop the final character. -/
def dropLastChar (s : String) : String := String.mk s.data.dropLast

/-- Model of `findMatchingTrainsWithoutLastDigit` (`train-lines.ts`): drop
the last digit of the searched number and of every known number and collect
the known numbers whose truncation agrees, in key-enumeration order. -/
def findMatchingTrainsWithoutLastDigit (m : TrainLineMapping)
    (trainNumber : String) : List String :=
  if trainNumber.length < 2 then []
  else
    (jsObjectKeys m).filter (fun k => dropLastChar k = dropLastChar trainNumber)

/-- Model of `LINE_TRAIN_COUNT` (`Object.fromEntries`, last occurrence of a
line wins): number of train numbers in the line's definition. -/
def lineTrainCount (definitions : List TrainLineDefinition) (line : String) :
    Option Nat :=
  (definitions.reverse.find? (fun d => d.line = line)).map (·.trainNumbers.length)

/-- `Number.MAX_SAFE_INTEGER`. -/
def MAX_SAFE_INTEGER : Nat := 9007199254740991

/-- Model of `selectLineFromEntry` (`train-lines.ts`): prefer a line from the
normalized preferences; with several preference hits take the one with the
fewest train numbers; otherwise the primary line. -/
def selectLineFromEntry (definitions : List TrainLineDefinition)
    (entry : TrainLineMappingEntry) (preferredLines : Option (List String)) :
    String :=
  let normalizedPreferences :=
    match preferredLines with
    | some ps => normalizeLines ps
    | none => []
  if normalizedPreferences.isEmpty then entry.primaryLine
  else
    let hits := normalizedPreferences.filterMap
      (fun preferred => entry.lines.find? (fun cand => toUpperS cand = preferred))
    match hits with
    | [] => entry.primaryLine
    | [m] => m
    | m :: rest =>
      rest.foldl
        (fun best current =>
          let bestSize := (lineTrainCount definitions best).getD MAX_SAFE_INTEGER
          let currentSize :=
            (lineTrainCount definitions current).getD MAX_SAFE_INTEGER
          if currentSize < bestSize then current else best)
        m

/-- Model of `addTrainNumberToLineDefinition` (`train-lines.ts`): read the
definition file of `line` (matched case-insensitively, as the file name is
the lowercased line id), append the train number if absent and re-sort
numerically (stable, `parseInt` comparator).  The current-Fahrplan-year
directory resolution is elided: the file store is the loaded definition
list. -/
def addTrainNumberToLineDefinition (definitions : List TrainLineDefinition)
    (line trainNumber : String) : List TrainLineDefinition :=
  definitions.map (fun d =>
    if toLowerS d.line = toLowerS line then
      if trainNumber ∈ d.trainNumbers then d
      else
        { d with
          trainNumbers :=
            sortBy (fun a b => numKey a ≤ numKey b)
              (d.trainNumbers ++ [trainNumber]) }
    else d)

/-- Outcome of `lookupLineForTrain`: a line, `undefined`, or the thrown
fallback-applied error (which carries the persisted update). -/
inductive LookupOutcome where
  | found (line : String)
  | notFound
  | fallbackApplied (line : String) (found : List String)
      (newDefinitions : List TrainLineDefinition)
deriving DecidableEq, Repr

/-- Model of `lookupLineForTrain` (`train-lines.ts`): exact lookup first;
otherwise the digit-truncation fallback, which persists the new train number
into the selected line's definition and throws. -/
def lookupLineForTrain (definitions : List TrainLineDefinition)
    (trainNumber : String) (preferredLines : Option (List String)) :
    LookupOutcome :=
  let mapping := buildTrainLineMapping definitions
  match findEntry mapping trainNumber with
  | some entry => .found (selectLineFromEntry definitions entry preferredLines)
  | none =>
    match findMatchingTrainsWithoutLastDigit mapping trainNumber with
    | [] => .notFound
    | firstMatch :: more =>
      if firstMatch = "" then .notFound
      else
        match findEntry mapping firstMatch with
        | none => .notFound
        | some fallbackEntry =>
          let selectedLine :=
            selectLineFromEntry definitions fallbackEntry preferredLines
          .fallbackApplied selectedLine (firstMatch :: more)
            (addTrainNumberToLineDefinition definitions selectedLine trainNumber)

/-! ## Line resolution (`trip-parsing.ts`) -/

/-- Model of `isAmbiguousLine`. -/
def isAmbiguousLine (line : String) : Bool :=
  if line = "" || line = DEFAULT_LINE then true
  else if multiLineHintTest line then true
  else if multiLineRangeTest line then true
  else false

/-- An observation recorded through `onTrainLineObserved`. -/
abbrev Observation := String × String

/-- The thrown fallback error as it propagates through parsing. -/
structure FallbackErr where
  trainNumber : String
  line : String
  found : List String
  newDefinitions : List TrainLineDefinition
deriving DecidableEq, Repr

/-- Model of `resolveLineForTrip` (`trip-parsing.ts`): the observation
callback is modelled by returning the recorded pairs.  The function receives
exactly the metadata fields the source destructures (`line`,
`mentionedLines`, `lineMentionCount`). -/
def resolveLineForTrip (definitions : List TrainLineDefinition)
    (trainNumber : String) (line : String) (mentionedLines : List String)
    (lineMentionCount : Nat) : Except FallbackErr (String × List Observation) :=
  let normalizedLine := (normalizeLine line).getD DEFAULT_LINE
  let isAmbiguous := isAmbiguousLine normalizedLine
  let hasSingleLineMention := lineMentionCount = 1
  if hasSingleLineMention && !isAmbiguous && normalizedLine ≠ DEFAULT_LINE then
    .ok (normalizedLine, [(normalizedLine, trainNumber)])
  else if lineMentionCount > 0 then
    match lookupLineForTrain definitions trainNumber (some mentionedLines) with
    | .found mapped =>
      if mapped = "" then .ok (normalizedLine, []) else .ok (mapped, [])
    | .notFound => .ok (normalizedLine, [])
    | .fallbackApplied sel ms newDefs =>
      .error ⟨trainNumber, sel, ms, newDefs⟩
  else .ok (normalizedLine, [])

/-! ## Records and `parseTripLine` (`types.ts`, `trip-parsing.ts`) -/

/-- Model of the `Cancellation` record (`types.ts`). -/
structure Cancellation where
  line : String
  date : String
  stand : String
  trainNumber : String
  fromStop : String
  fromTime : String
  toStop : String
  toTime : String
  sourceUrl : String
  capturedAt : String
deriving DecidableEq, Repr

/-- Model of `TripParsingMetadata` (`types.ts`), with the observation
callback replaced by explicit observation output. -/
structure TripMetadata where
  line : String
  mentionedLines : List String
  lineMentionCount : Nat
  date : String
  stand : String
  sourceUrl : String
  capturedAt : String
deriving DecidableEq, Repr

/-- Model of `buildCancellation` (`trip-parsing.ts`). -/
def buildCancellation (definitions : List TrainLineDefinition) (c : TripCaps)
    (md : TripMetadata) : Except FallbackErr (Cancellation × List Observation) :=
  match resolveLineForTrip definitions c.trainNumber md.line md.mentionedLines
      md.lineMentionCount with
  | .error e => .error e
  | .ok (resolved, obs) =>
    .ok ({ line := resolved
           date := md.date
           stand := md.stand
           trainNumber := c.trainNumber
           fromStop := jsTrim c.fromStop
           fromTime := c.fromTime
           toStop := jsTrim c.toStop
           toTime := c.toTime
           sourceUrl := md.sourceUrl
           capturedAt := md.capturedAt }, obs)

/-- Model of `parseTripLine` (`trip-parsing.ts`): grammar and validation
(`tripFields`), then record construction via line resolution. -/
def parseTripLine (definitions : List TrainLineDefinition) (line : String)
    (md : TripMetadata) :
    Except FallbackErr (Option (Cancellation × List Observation)) :=
  match tripFields line with
  | none => .ok none
  | some c => (buildCancellation definitions c md).map some

/-! ## `parseDetailPage` (`parser/index.ts`) -/

/-- Parse errors thrown by `parseDetailPage`: the no-trips `ParseError`, or a
propagated fallback error from line resolution. -/
inductive ParseErr where
  | noTrips (url : String)
  | fallback (e : FallbackErr)
deriving DecidableEq, Repr

/-- The trip loop of `parseDetailPage`: parse each segmented line in order,
collecting records and observations; a thrown fallback error aborts the
loop. -/
def parseTripsLoop (definitions : List TrainLineDefinition) (md : TripMetadata) :
    List String → Except FallbackErr (List Cancellation × List Observation)
  | [] => .ok ([], [])
  | line :: rest =>
    match parseTripLine definitions line md with
    | .error e => .error e
    | .ok r =>
      match parseTripsLoop definitions md rest with
      | .error e => .error e
      | .ok (trips, obs) =>
        match r with
        | some (c, o) => .ok (c :: trips, o ++ obs)
        | none => .ok (trips, obs)

/-- The closing step of `parseDetailPage`: wrap a propagated fallback error,
or raise the no-trips `ParseError` on an empty trip list. -/
def finishParse (url : String) :
    Except FallbackErr (List Cancellation × List Observation) →
      Except ParseErr (List Cancellation × List Observation)
  | .error e => .error (.fallback e)
  | .ok (trips, obs) =>
    if trips.isEmpty then .error (.noTrips url) else .ok (trips, obs)

/-- Model of `parseDetailPage` (`parser/index.ts`): strip markup, extract
metadata, segment and parse trips, and throw the no-trips `ParseError` when
nothing parsed.  The clock parameter models the `new Date()` reads. -/
def parseDetailPage (definitions : List TrainLineDefinition)
    (html url : String) (clock : Clock) :
    Except ParseErr (List Cancellation × List Observation) :=
  let text := stripHtml html
  let line := extractLine text
  let mentionedLines := extractMentionedLines text
  let lineMentionCount := mentionedLines.length
  let st := extractStand clock text
  let md : TripMetadata :=
    { line := line
      mentionedLines := mentionedLines
      lineMentionCount := lineMentionCount
      date := st.dateForTrips
      stand := st.standIso
      sourceUrl := url
      capturedAt := clock.nowIso }
  let tripLines := extractTripLines text
  finishParse url (parseTripsLoop definitions md tripLines)

/-! ## The deduplicating store (`storage.ts`)

File-system state is an association list from file path to file content; a
file is `valid` (a JSON array of records) or `invalid` (unparsable JSON or a
non-array value).  An absent path models a missing file. -/

/-- Content of an on-disk bucket file. -/
inductive FileContent where
  | valid (entries : List Cancellation)
  | invalid
deriving DecidableEq, Repr

/-- The modelled file system. -/
abbrev Disk := List (String × FileContent)

/-- Read a file. -/
def lookupDisk (d : Disk) (p : String) : Option FileContent :=
  (d.find? (fun e => e.1 = p)).map (·.2)

/-- Write a file: replace the entry at the path, or create it. -/
def updateDisk : Disk → String → FileContent → Disk
  | [], p, v => [(p, v)]
  | (q, w) :: rest, p, v =>
    if q = p then (q, v) :: rest else (q, w) :: updateDisk rest p v

/-- Model of `loadExisting` (`storage.ts`): a missing, unreadable or
non-array file yields the empty list; no error escapes. -/
def loadExisting (d : Disk) (p : String) : List Cancellation :=
  match lookupDisk d p with
  | some (.valid entries) => entries
  | _ => []

/-- Model of `isDuplicate` (`storage.ts`). -/
def isDuplicate (a b : Cancellation) : Bool :=
  a.date = b.date && a.trainNumber = b.trainNumber && a.fromTime = b.fromTime

/-- Comparator order of `sortDeterministic` (`storage.ts`): lexicographic on
(date, fromTime, trainNumber); `localeCompare` on these ASCII fields is
modelled by code-point string order.  `cancLe a b` states that the comparator
returns a non-positive value. -/
def cancLe (a b : Cancellation) : Bool :=
  if a.date = b.date then
    if a.fromTime = b.fromTime then
      decide (a.trainNumber ≤ b.trainNumber)
    else decide (a.fromTime ≤ b.fromTime)
  else decide (a.date ≤ b.date)

/-- Model of a `CancellationBucket` (`storage.ts`), statistics inlined. -/
structure Bucket where
  key : String
  year : String
  line : String
  filePath : String
  entries : List Cancellation
  added : Nat
  duplicates : Nat
deriving DecidableEq, Repr

/-- Model of `bucketKey`. -/
def bucketKey (year line : String) : String := year ++ "/" ++ line

/-- The file path of a bucket (`join(baseDir, year, line + '.json')`). -/
def bucketPath (baseDir year line : String) : String :=
  baseDir ++ "/" ++ year ++ "/" ++ line ++ ".json"

/-- Model of `mergeTrip` (`storage.ts`): append unless an existing entry
shares the identity key. -/
def mergeTrip (b : Bucket) (trip : Cancellation) : Bucket :=
  if b.entries.any (fun existing => isDuplicate existing trip) then
    { b with duplicates := b.duplicates + 1 }
  else
    { b with entries := b.entries ++ [trip], added := b.added + 1 }

/-- Update the bucket stored under an existing key. -/
def updateBuckets : List Bucket → String → Cancellation → List Bucket
  | [], _, _ => []
  | b :: bs, key, trip =>
    if b.key = key then mergeTrip b trip :: bs
    else b :: updateBuckets bs key trip

/-- The fresh bucket initialised for a trip by `findOrCreateBucket`: the
(year, line) key, the bucket file path and the loaded existing entries. -/
def freshBucket (disk : Disk) (baseDir : String) (trip : Cancellation) :
    Bucket :=
  ⟨bucketKey (jsSlice trip.date 4) trip.line, jsSlice trip.date 4, trip.line,
    bucketPath baseDir (jsSlice trip.date 4) trip.line,
    loadExisting disk (bucketPath baseDir (jsSlice trip.date 4) trip.line),
    0, 0⟩

/-- Model of `findOrCreateBucket` followed by `mergeTrip` for one trip: the
bucket for (year, line) is looked up or freshly initialised from the disk. -/
def processTrip (disk : Disk) (baseDir : String) (buckets : List Bucket)
    (trip : Cancellation) : List Bucket :=
  let key := bucketKey (jsSlice trip.date 4) trip.line
  if buckets.any (fun b => b.key = key) then updateBuckets buckets key trip
  else buckets ++ [mergeTrip (freshBucket disk baseDir trip) trip]

/-- The grouping loop of `saveCancellations`. -/
def processTrips (disk : Disk) (baseDir : String) (trips : List Cancellation) :
    List Bucket :=
  trips.foldl (processTrip disk baseDir) []

/-- Model of `writeBucket`: sort deterministically and replace the file. -/
def writeBucket (d : Disk) (b : Bucket) : Disk :=
  updateDisk d b.filePath (.valid (sortBy cancLe b.entries))

/-- Result of `saveCancellations`: the new file system and the buckets (whose
counters carry the reported statistics). -/
structure SaveResult where
  disk : Disk
  buckets : List Bucket
deriving DecidableEq, Repr

/-- Model of `saveCancellations` (`storage.ts`). -/
def saveCancellations (disk : Disk) (baseDir : String)
    (trips : List Cancellation) : SaveResult :=
  let buckets := processTrips disk baseDir trips
  ⟨buckets.foldl writeBucket disk, buckets⟩

/-- Total reported `added` count. -/
def totalAdded (bs : List Bucket) : Nat := (bs.map (·.added)).sum

/-- Total reported `duplicates` count. -/
def totalDuplicates (bs : List Bucket) : Nat := (bs.map (·.duplicates)).sum

end KVV

/-! # Lemmas and claim theorems -/

namespace KVV

/-! ## C6: the merge bound of the trip segmenter -/

/-- Every combination returned by the lookahead loop is grammar-valid. -/
theorem tryMergeGo_valid (budget : Nat) :
    ∀ (rest : List String) (combined : String) (offset : Nat) (s : String)
      (k : Nat), tryMergeGo combined offset budget rest = some (s, k) →
      isValidTripLine s = true := by
  induction budget with
  | zero => intro rest combined offset s k h; cases rest <;> simp [tryMergeGo] at h
  | succ n ih =>
    intro rest combined offset s k h
    cases rest with
    | nil => simp [tryMergeGo] at h
    | cons next more =>
      simp only [tryMergeGo] at h
      by_cases hv : isValidTripLine (jsTrim (combined ++ " " ++ next)) = true
      · simp [hv] at h
        obtain ⟨h1, _⟩ := h
        rw [← h1]; exact hv
      · simp [hv] at h
        exact ih more _ _ s k h

/-- Every combination returned by `tryMergeWithNext` is grammar-valid. -/
theorem tryMergeWithNext_valid (l : List String) (s : String) (k : Nat)
    (h : tryMergeWithNext l = some (s, k)) : isValidTripLine s = true := by
  cases l with
  | nil => simp [tryMergeWithNext] at h
  | cons current rest => exact tryMergeGo_valid _ _ _ _ _ _ h

/-- Every string produced by the merge loop is grammar-valid. -/
theorem mergeGo_all_valid (fuel : Nat) :
    ∀ l : List String, (mergeGo fuel l).all isValidTripLine = true := by
  induction fuel with
  | zero => intro l; simp [mergeGo]
  | succ n ih =>
    intro l
    cases l with
    | nil => simp [mergeGo]
    | cons current rest =>
      simp only [mergeGo]
      by_cases hv : isValidTripLine current = true
      · simp [hv, List.all_cons, ih]
      · simp only [Bool.not_eq_true] at hv
        simp only [hv]
        match hm : tryMergeWithNext (current :: rest) with
        | some (combined, consumed) =>
          simp [List.all_cons, tryMergeWithNext_valid _ _ _ hm, ih]
        | none => simp [ih]

/-- Claim C6: an invalid segmented line is combined with up to 3 following
lines, the first grammar-valid combination is kept and all consumed lines are
skipped, and a line admitting no valid combination is dropped; consequently
every output of `mergeTripLines` is grammar-valid, a trip split across
exactly 3 physical lines is recovered, and one split across 5 physical lines
is dropped. -/
theorem mergeTripLines_lookahead_bound :
    (∀ rawLines : List String,
      (mergeTripLines rawLines).all isValidTripLine = true) ∧
    mergeTripLines
      ["84888 08:38 Uhr", "Söllingen Bahnhof -",
       "10:07 Uhr Germersheim Bahnhof"] =
      ["84888 08:38 Uhr Söllingen Bahnhof - 10:07 Uhr Germersheim Bahnhof"] ∧
    mergeTripLines
      ["84888", "08:38 Uhr", "Söllingen Bahnhof", "-",
       "10:07 Uhr Germersheim Bahnhof"] = [] := by
  refine ⟨fun rawLines => mergeGo_all_valid _ _, ?_, ?_⟩ <;> decide

/-! ## C7: grammar round-trips on the literal spec inputs -/

/-- Claim C7: the trip line parser extracts the documented fields from the
literal new-format and old-format inputs of the spec. -/
theorem tripFields_literal_examples :
    tripFields "84888 08:38 Uhr Söllingen Bahnhof - 10:07 Uhr Germersheim Bahnhof" =
      some ⟨"84888", "Söllingen Bahnhof", "08:38", "Germersheim Bahnhof", "10:07"⟩ ∧
    tripFields "123 Karlsruhe Hbf (10:30 Uhr) - Bruchsal (11:00)" =
      some ⟨"123", "Karlsruhe Hbf", "10:30", "Bruchsal", "11:00"⟩ := by
  decide

end KVV

namespace KVV

/-! ## C2: knowledge-base construction and shared train numbers -/

/-- Counterexample to claim C2: two definitions that are not connected in any
way both declare train number "10050", yet `buildTrainLineMapping` (a total
function with no failure outcome) succeeds and records both lines. -/
theorem buildTrainLineMapping_conflict_tolerated :
    buildTrainLineMapping
      [⟨"S1", ["10050"], none⟩, ⟨"S2", ["10050"], none⟩] =
      [("10050", ⟨"S1", ["S1", "S2"]⟩)] := by
  decide

/-- Unfolding lemma for `findEntry` on a cons cell. -/
theorem findEntry_cons (q : String) (w : TrainLineMappingEntry)
    (rest : TrainLineMapping) (k : String) :
    findEntry ((q, w) :: rest) k = if q = k then some w else findEntry rest k := by
  by_cases h : q = k <;> simp [findEntry, List.find?_cons, h]

/-- Unfolding lemma for `setEntry` on a cons cell. -/
theorem setEntry_cons (q : String) (w : TrainLineMappingEntry)
    (rest : TrainLineMapping) (k : String) (v : TrainLineMappingEntry) :
    setEntry ((q, w) :: rest) k v =
      (if q = k then (q, v) else (q, w)) :: setEntry rest k v := by
  by_cases h : q = k <;> simp [setEntry, h]

/-- Updating an existing key. -/
theorem findEntry_setEntry_self (m : TrainLineMapping) (k : String)
    (e v : TrainLineMappingEntry) (h : findEntry m k = some e) :
    findEntry (setEntry m k v) k = some v := by
  induction m with
  | nil => simp [findEntry] at h
  | cons p rest ih =>
    obtain ⟨q, w⟩ := p
    rw [findEntry_cons] at h
    rw [setEntry_cons]
    by_cases hk : q = k
    · simp [hk, findEntry_cons]
    · rw [if_neg hk, findEntry_cons, if_neg hk]
      rw [if_neg hk] at h
      exact ih h

/-- Updating one key leaves other keys unchanged. -/
theorem findEntry_setEntry_ne (m : TrainLineMapping) (k k' : String)
    (v : TrainLineMappingEntry) (h : k' ≠ k) :
    findEntry (setEntry m k v) k' = findEntry m k' := by
  induction m with
  | nil => simp [findEntry, setEntry]
  | cons p rest ih =>
    obtain ⟨q, w⟩ := p
    rw [setEntry_cons]
    by_cases hk : q = k
    · rw [if_pos hk, findEntry_cons, findEntry_cons]
      have hq : q ≠ k' := fun hq => h (hq ▸ hk ▸ rfl)
      rw [if_neg hq, if_neg hq]
      exact ih
    · rw [if_neg hk, findEntry_cons, findEntry_cons]
      by_cases hq : q = k'
      · simp [hq]
      · rw [if_neg hq, if_neg hq]
        exact ih

/-- Registering a pair makes the line visible under the train number. -/
theorem insertTrainNumber_self (m : TrainLineMapping) (line tn : String) :
    ∃ e, findEntry (insertTrainNumber m line tn) tn = some e ∧ line ∈ e.lines := by
  unfold insertTrainNumber
  match h : findEntry m tn with
  | none =>
    refine ⟨⟨line, [line]⟩, ?_, by simp⟩
    have hfind : m.find? (fun p => p.1 = tn) = none := by
      by_contra hne
      rcases Option.ne_none_iff_exists'.mp hne with ⟨p, hp⟩
      simp [findEntry, hp] at h
    simp [findEntry, List.find?_append, hfind]
  | some e =>
    by_cases hl : line ∈ e.lines
    · exact ⟨e, by simp [hl, h], hl⟩
    · refine ⟨⟨e.primaryLine, e.lines ++ [line]⟩, ?_, by simp⟩
      simp only [hl, if_neg]
      simpa [hl] using findEntry_setEntry_self m tn e _ h

/-- Registering a pair preserves every previously visible line. -/
theorem insertTrainNumber_preserve (m : TrainLineMapping)
    (line tn tn' l : String) (e : TrainLineMappingEntry)
    (h : findEntry m tn' = some e) (hl : l ∈ e.lines) :
    ∃ e', findEntry (insertTrainNumber m line tn) tn' = some e' ∧ l ∈ e'.lines := by
  unfold insertTrainNumber
  match hfe : findEntry m tn with
  | none =>
    refine ⟨e, ?_, hl⟩
    have hfind : (m.find? (fun p => p.1 = tn')).map (·.2) = some e := h
    rcases Option.map_eq_some'.mp hfind with ⟨p, hp, hpe⟩
    simp [findEntry, List.find?_append, hp, hpe]
  | some e₀ =>
    by_cases hin : line ∈ e₀.lines
    · exact ⟨e, by simpa [hin] using h, hl⟩
    · by_cases htn : tn' = tn
      · subst htn
        have he : e₀ = e := by rw [hfe] at h; exact Option.some_inj.mp h
        subst he
        refine ⟨⟨e₀.primaryLine, e₀.lines ++ [line]⟩, ?_, by simp [hl]⟩
        simpa [hin] using findEntry_setEntry_self m tn' e₀ _ hfe
      · refine ⟨e, ?_, hl⟩
        simpa [hin, findEntry_setEntry_ne m tn tn' _ htn] using h

/-- Visibility of a line under a train number is preserved by the inner
registration fold. -/
theorem innerFold_preserve (line' : String) (tns : List String)
    (m : TrainLineMapping) (tn' l : String) (e : TrainLineMappingEntry)
    (h : findEntry m tn' = some e) (hl : l ∈ e.lines) :
    ∃ e', findEntry
        (tns.foldl (fun m' x => insertTrainNumber m' line' x) m) tn' = some e' ∧
      l ∈ e'.lines := by
  induction tns generalizing m e with
  | nil => exact ⟨e, h, hl⟩
  | cons x rest ih =>
    rcases insertTrainNumber_preserve m line' x tn' l e h hl with ⟨e₁, h₁, hl₁⟩
    exact ih _ _ h₁ hl₁

/-- The inner registration fold makes each declared pair visible. -/
theorem innerFold_establish (line' : String) (tns : List String)
    (m : TrainLineMapping) (tn : String) (htn : tn ∈ tns) :
    ∃ e, findEntry
        (tns.foldl (fun m' x => insertTrainNumber m' line' x) m) tn = some e ∧
      line' ∈ e.lines := by
  induction tns generalizing m with
  | nil => cases htn
  | cons x rest ih =>
    by_cases hx : tn = x
    · subst hx
      rcases insertTrainNumber_self m line' tn with ⟨e, h, hl⟩
      exact innerFold_preserve line' rest _ tn line' e h hl
    · exact ih _ ((List.mem_cons.mp htn).resolve_left hx)

/-- Visibility is preserved by the outer definition fold. -/
theorem outerFold_preserve (ds : List TrainLineDefinition)
    (m : TrainLineMapping) (tn l : String) (e : TrainLineMappingEntry)
    (h : findEntry m tn = some e) (hl : l ∈ e.lines) :
    ∃ e', findEntry
        (ds.foldl
          (fun m' d => d.trainNumbers.foldl
            (fun m'' x => insertTrainNumber m'' d.line x) m') m) tn = some e' ∧
      l ∈ e'.lines := by
  induction ds generalizing m e with
  | nil => exact ⟨e, h, hl⟩
  | cons d rest ih =>
    rcases innerFold_preserve d.line d.trainNumbers m tn l e h hl with ⟨e₁, h₁, hl₁⟩
    exact ih _ _ h₁ hl₁

/-- Generalised form of the amended claim C2 over an arbitrary fold start. -/
theorem buildFold_records (ds : List TrainLineDefinition)
    (m : TrainLineMapping) (d : TrainLineDefinition) (tn : String)
    (hd : d ∈ ds) (htn : tn ∈ d.trainNumbers) :
    ∃ e, findEntry
        (ds.foldl
          (fun m' d' => d'.trainNumbers.foldl
            (fun m'' x => insertTrainNumber m'' d'.line x) m') m) tn = some e ∧
      d.line ∈ e.lines := by
  induction ds generalizing m with
  | nil => cases hd
  | cons d₀ rest ih =>
    rcases List.mem_cons.mp hd with hd₀ | hmem
    · subst hd₀
      rcases innerFold_establish d.line d.trainNumbers m tn htn with ⟨e, h, hl⟩
      exact outerFold_preserve rest _ tn d.line e h hl
    · exact ih _ hmem

/-- Amended claim C2: knowledge-base construction never fails — whenever a
definition declares a train number, the built mapping has an entry for that
number which records the declaring line (regardless of any `connectedLines`
declarations, which the construction does not consult). -/
theorem buildTrainLineMapping_records_all_lines
    (definitions : List TrainLineDefinition) (d : TrainLineDefinition)
    (tn : String) (hd : d ∈ definitions) (htn : tn ∈ d.trainNumbers) :
    ∃ e, findEntry (buildTrainLineMapping definitions) tn = some e ∧
      d.line ∈ e.lines :=
  buildFold_records definitions [] d tn hd htn

/-- Witness for the amended claim C2 at the spec's concrete conflict input. -/
theorem buildTrainLineMapping_records_all_lines_witness :
    ∃ e, findEntry
        (buildTrainLineMapping
          [⟨"S1", ["10050"], none⟩, ⟨"S2", ["10050"], none⟩]) "10050" =
        some e ∧ "S2" ∈ e.lines :=
  buildTrainLineMapping_records_all_lines _ ⟨"S2", ["10050"], none⟩ _
    (by decide) (by decide)

/-! ## C3: single-mention resolution -/

/-- A non-ambiguous line is not the `UNKNOWN` placeholder. -/
theorem ne_default_of_not_ambiguous (line : String)
    (h : isAmbiguousLine line = false) : line ≠ DEFAULT_LINE := by
  intro hEq
  rw [isAmbiguousLine] at h
  simp [hEq] at h

/-- Claim C3: with exactly one mentioned line and a non-ambiguous declared
line, the resolver returns the declared line for any knowledge-base contents
and records the (line, trainNumber) observation. -/
theorem resolveLineForTrip_single_mention
    (definitions : List TrainLineDefinition)
    (trainNumber line : String) (mentionedLines : List String)
    (h : isAmbiguousLine ((normalizeLine line).getD DEFAULT_LINE) = false) :
    resolveLineForTrip definitions trainNumber line mentionedLines 1 =
      .ok ((normalizeLine line).getD DEFAULT_LINE,
           [((normalizeLine line).getD DEFAULT_LINE, trainNumber)]) := by
  have hne := ne_default_of_not_ambiguous _ h
  unfold resolveLineForTrip
  simp [h, hne]

/-- Witness for claim C3: declared line "S5", single mention "S5", an
arbitrary non-trivial knowledge base. -/
theorem resolveLineForTrip_single_mention_witness :
    resolveLineForTrip [⟨"S99", ["70010"], none⟩] "70010" "S5" ["S5"] 1 =
      .ok ("S5", [("S5", "70010")]) := by
  have := resolveLineForTrip_single_mention
    [⟨"S99", ["70010"], none⟩] "70010" "S5" ["S5"] (by decide)
  simpa using this

/-! ## C4: multi-line articles with unmapped train numbers -/

/-- Counterexample to claim C4: in a multi-line article (two mentioned
lines), a train number with no knowledge-base entry and no fallback match is
resolved by returning the declared (ambiguous) line normally — no error is
raised, the record is silently produced with the declared line. -/
theorem resolveLineForTrip_unmapped_cx :
    resolveLineForTrip [] "999" "S1 und S2" ["S1", "S2"] 2 =
      .ok ("S1 und S2", []) := by
  rfl

/-- Amended claim C4: when a train number has neither an exact knowledge-base
entry nor a digit-truncation fallback match, the resolver never raises — it
falls back to the declared (possibly ambiguous) line as-is. -/
theorem resolveLineForTrip_unmapped_returns_declared
    (definitions : List TrainLineDefinition)
    (trainNumber line : String) (mentionedLines : List String)
    (lineMentionCount : Nat)
    (hexact : findEntry (buildTrainLineMapping definitions) trainNumber = none)
    (hmatch : findMatchingTrainsWithoutLastDigit
        (buildTrainLineMapping definitions) trainNumber = []) :
    ∃ obs, resolveLineForTrip definitions trainNumber line mentionedLines
        lineMentionCount =
      .ok ((normalizeLine line).getD DEFAULT_LINE, obs) := by
  have hlk : lookupLineForTrain definitions trainNumber (some mentionedLines) =
      .notFound := by
    unfold lookupLineForTrain
    simp [hexact, hmatch]
  unfold resolveLineForTrip
  dsimp only
  split
  · exact ⟨_, rfl⟩
  · split
    · rw [hlk]
      exact ⟨[], rfl⟩
    · exact ⟨[], rfl⟩

/-- Witness for the amended claim C4. -/
theorem resolveLineForTrip_unmapped_returns_declared_witness :
    ∃ obs, resolveLineForTrip [⟨"S4", ["70010"], none⟩] "80000" "S1 und S2"
        ["S1", "S2"] 2 = .ok ("S1 und S2", obs) :=
  resolveLineForTrip_unmapped_returns_declared _ _ _ _ _ (by decide) (by decide)

end KVV

namespace KVV

/-! ## C1: fallback matching persists and raises -/

/-- Membership through stable insertion. -/
theorem mem_insortBy {α : Type} (le : α → α → Bool) (x a : α) :
    ∀ l : List α, a ∈ insortBy le x l ↔ a = x ∨ a ∈ l := by
  intro l
  induction l with
  | nil => simp [insortBy]
  | cons y ys ih =>
    by_cases h : le x y <;>
      simp [insortBy, h, ih] <;> tauto

/-- Membership through the stable sort. -/
theorem mem_sortBy {α : Type} (le : α → α → Bool) (a : α) :
    ∀ l : List α, a ∈ sortBy le l ↔ a ∈ l := by
  intro l
  induction l with
  | nil => simp [sortBy]
  | cons y ys ih =>
    show a ∈ insortBy le y (sortBy le ys) ↔ _
    rw [mem_insortBy]
    simp [ih]

/-- The key enumeration is a rearrangement of the stored keys. -/
theorem mem_jsObjectKeys (m : TrainLineMapping) (k : String)
    (h : k ∈ jsObjectKeys m) : k ∈ m.map (·.1) := by
  unfold jsObjectKeys at h
  rcases List.mem_append.mp h with h1 | h2
  · exact (List.mem_filter.mp ((mem_sortBy _ _ _).mp h1)).1
  · exact (List.mem_filter.mp h2).1

/-- A stored key has an entry. -/
theorem findEntry_isSome_of_mem (m : TrainLineMapping) (k : String)
    (h : k ∈ m.map (·.1)) : ∃ e, findEntry m k = some e := by
  rcases List.mem_map.mp h with ⟨p, hp, hk⟩
  have : (m.find? (fun q => q.1 = k)).isSome := by
    rw [List.find?_isSome]
    exact ⟨p, hp, by simp [hk]⟩
  rcases Option.isSome_iff_exists.mp this with ⟨q, hq⟩
  exact ⟨q.2, by simp [findEntry, hq]⟩

/-- A found entry comes from a stored pair. -/
theorem findEntry_mem_pair (m : TrainLineMapping) (k : String)
    (e : TrainLineMappingEntry) (h : findEntry m k = some e) :
    ∃ p ∈ m, p.1 = k ∧ p.2 = e := by
  unfold findEntry at h
  rcases Option.map_eq_some'.mp h with ⟨r, hr, hre⟩
  refine ⟨r, List.mem_of_find?_eq_some hr, ?_, hre⟩
  have := List.find?_some hr
  simpa using this

/-- The preference reduction stays inside a membership-closed set. -/
theorem foldl_pick_mem {α : Type} (S : List α) (size : α → Nat) :
    ∀ (rest : List α) (best : α), best ∈ S → (∀ x ∈ rest, x ∈ S) →
      rest.foldl (fun b c => if size c < size b then c else b) best ∈ S := by
  intro rest
  induction rest with
  | nil => intro best hb _; exact hb
  | cons x xs ih =>
    intro best hb hall
    simp only [List.foldl_cons]
    by_cases h : size x < size best
    · rw [if_pos h]
      exact ih x (hall x (by simp)) (fun y hy => hall y (by simp [hy]))
    · rw [if_neg h]
      exact ih best hb (fun y hy => hall y (by simp [hy]))

/-- `selectLineFromEntry` yields the primary line or one of the entry's
lines. -/
theorem selectLineFromEntry_mem (definitions : List TrainLineDefinition)
    (entry : TrainLineMappingEntry) (prefs : Option (List String)) :
    selectLineFromEntry definitions entry prefs = entry.primaryLine ∨
      selectLineFromEntry definitions entry prefs ∈ entry.lines := by
  unfold selectLineFromEntry
  set np := match prefs with
    | some ps => normalizeLines ps
    | none => [] with hnp
  by_cases hemp : np.isEmpty
  · simp [hemp]
  · simp only [hemp, Bool.false_eq_true, not_false_eq_true, ite_false, if_neg]
    have hhits : ∀ x ∈ np.filterMap
        (fun preferred => entry.lines.find? (fun cand => toUpperS cand = preferred)),
        x ∈ entry.lines := by
      intro x hx
      rcases List.mem_filterMap.mp hx with ⟨pref, _, hfind⟩
      exact List.mem_of_find?_eq_some hfind
    match hh : np.filterMap
        (fun preferred => entry.lines.find? (fun cand => toUpperS cand = preferred)) with
    | [] => left; rfl
    | [m] =>
      right
      exact hhits m (by rw [hh]; simp)
    | m :: m' :: ms =>
      right
      refine foldl_pick_mem entry.lines _ (m' :: ms) m ?_ ?_
      · exact hhits m (by rw [hh]; simp)
      · intro x hx
        exact hhits x (by rw [hh]; simp [hx])

/-- Every line recorded anywhere in the built mapping is the line of some
definition (invariant over the construction folds). -/
def LinesFrom (S : List String) (m : TrainLineMapping) : Prop :=
  ∀ p ∈ m, p.2.primaryLine ∈ S ∧ ∀ l ∈ p.2.lines, l ∈ S

theorem linesFrom_insert (S : List String) (m : TrainLineMapping)
    (line tn : String) (hm : LinesFrom S m) (hl : line ∈ S) :
    LinesFrom S (insertTrainNumber m line tn) := by
  unfold insertTrainNumber
  match h : findEntry m tn with
  | none =>
    intro p hp
    rcases List.mem_append.mp hp with hp1 | hp2
    · exact hm p hp1
    · simp at hp2
      subst hp2
      refine ⟨hl, ?_⟩
      intro l hl'
      simp at hl'
      subst hl'
      exact hl
  | some e =>
    rcases findEntry_mem_pair m tn e h with ⟨r, hrm, hr1, hr2⟩
    rcases hm r hrm with ⟨hrp, hrl⟩
    by_cases hin : line ∈ e.lines
    · simpa [hin] using hm
    · show LinesFrom S
        (if line ∈ e.lines then m
         else setEntry m tn ⟨e.primaryLine, e.lines ++ [line]⟩)
      rw [if_neg hin]
      intro p hp
      unfold setEntry at hp
      rcases List.mem_map.mp hp with ⟨q, hq, hpq⟩
      subst hpq
      by_cases hqk : q.1 = tn
      · rw [if_pos hqk]
        constructor
        · show e.primaryLine ∈ S
          rw [← hr2]
          exact hrp
        · intro l hl'
          rcases List.mem_append.mp hl' with h1 | h2
          · rw [← hr2] at h1
            exact hrl l h1
          · simp at h2
            subst h2
            exact hl
      · rw [if_neg hqk]
        exact hm q hq

theorem linesFrom_innerFold (S : List String) (line : String)
    (tns : List String) (hl : line ∈ S) :
    ∀ m, LinesFrom S m →
      LinesFrom S (tns.foldl (fun m' x => insertTrainNumber m' line x) m) := by
  induction tns with
  | nil => intro m hm; exact hm
  | cons x rest ih =>
    intro m hm
    exact ih _ (linesFrom_insert S m line x hm hl)

theorem linesFrom_build (definitions : List TrainLineDefinition) :
    LinesFrom (definitions.map (·.line)) (buildTrainLineMapping definitions) := by
  unfold buildTrainLineMapping
  have main : ∀ (ds : List TrainLineDefinition) (S : List String) m,
      (∀ d ∈ ds, d.line ∈ S) → LinesFrom S m →
      LinesFrom S (ds.foldl
        (fun m' d => d.trainNumbers.foldl
          (fun m'' x => insertTrainNumber m'' d.line x) m') m) := by
    intro ds
    induction ds with
    | nil => intro S m _ hm; exact hm
    | cons d rest ih =>
      intro S m hS hm
      exact ih S _ (fun d' hd' => hS d' (by simp [hd']))
        (linesFrom_innerFold S d.line d.trainNumbers (hS d (by simp)) m hm)
  exact main definitions _ [] (fun d hd => List.mem_map.mpr ⟨d, hd, rfl⟩)
    (fun p hp => by cases hp)

/-- Persisting a train number to a line that has a definition: the updated
definition list contains a definition for that line containing the number. -/
theorem addTrainNumber_mem (definitions : List TrainLineDefinition)
    (sel tn : String) (hsel : sel ∈ definitions.map (·.line)) :
    ∃ d ∈ addTrainNumberToLineDefinition definitions sel tn,
      d.line = sel ∧ tn ∈ d.trainNumbers := by
  rcases List.mem_map.mp hsel with ⟨d, hd, hline⟩
  by_cases htn : tn ∈ d.trainNumbers
  · refine ⟨d, ?_, hline, htn⟩
    unfold addTrainNumberToLineDefinition
    apply List.mem_map.mpr
    refine ⟨d, hd, ?_⟩
    rw [if_pos (by rw [hline]), if_pos htn]
  · refine ⟨⟨d.line, sortBy (fun a b => numKey a ≤ numKey b)
        (d.trainNumbers ++ [tn]), d.connectedLines⟩, ?_, hline, ?_⟩
    · unfold addTrainNumberToLineDefinition
      apply List.mem_map.mpr
      refine ⟨d, hd, ?_⟩
      rw [if_pos (by rw [hline]), if_neg htn]
    · show tn ∈ sortBy (fun a b => numKey a ≤ numKey b) (d.trainNumbers ++ [tn])
      rw [mem_sortBy]
      simp

/-- Claim C1: when a train number has no exact knowledge-base entry but the
digit-truncation search finds matches, `lookupLineForTrain` selects the first
matched entry's line by the preference rule, persists the train number into
that line's definition, and signals the fallback-applied condition instead of
returning normally. -/
theorem lookupLineForTrain_fallback_persists
    (definitions : List TrainLineDefinition) (trainNumber : String)
    (prefs : Option (List String))
    (hexact : findEntry (buildTrainLineMapping definitions) trainNumber = none)
    (hmatch : findMatchingTrainsWithoutLastDigit
        (buildTrainLineMapping definitions) trainNumber ≠ []) :
    ∃ sel ms, lookupLineForTrain definitions trainNumber prefs =
        .fallbackApplied sel ms
          (addTrainNumberToLineDefinition definitions sel trainNumber) ∧
      ms = findMatchingTrainsWithoutLastDigit
          (buildTrainLineMapping definitions) trainNumber ∧
      ∃ d ∈ addTrainNumberToLineDefinition definitions sel trainNumber,
        d.line = sel ∧ trainNumber ∈ d.trainNumbers := by
  match hms : findMatchingTrainsWithoutLastDigit
      (buildTrainLineMapping definitions) trainNumber with
  | [] => exact absurd hms hmatch
  | firstMatch :: more =>
    have hmem : firstMatch ∈ findMatchingTrainsWithoutLastDigit
        (buildTrainLineMapping definitions) trainNumber := by
      rw [hms]; simp
    have hguard : ¬ trainNumber.length < 2 := by
      intro hl2
      unfold findMatchingTrainsWithoutLastDigit at hmem
      rw [if_pos hl2] at hmem
      cases hmem
    have hfilter : firstMatch ∈ (jsObjectKeys (buildTrainLineMapping definitions)).filter
        (fun k => dropLastChar k = dropLastChar trainNumber) := by
      unfold findMatchingTrainsWithoutLastDigit at hmem
      rwa [if_neg hguard] at hmem
    have hkey : firstMatch ∈ (buildTrainLineMapping definitions).map (·.1) :=
      mem_jsObjectKeys _ _ (List.mem_filter.mp hfilter).1
    have hne : firstMatch ≠ "" := by
      intro hempty
      have hpred := (List.mem_filter.mp hfilter).2
      simp only [decide_eq_true_eq] at hpred
      rw [hempty] at hpred
      have hdata : ([] : List Char) = trainNumber.data.dropLast :=
        congrArg String.data hpred
      have hlen0 : trainNumber.data.dropLast.length = 0 := by rw [← hdata]; rfl
      rw [List.length_dropLast] at hlen0
      have hlen4 : trainNumber.length = trainNumber.data.length := rfl
      omega
    rcases findEntry_isSome_of_mem _ _ hkey with ⟨fe, hfe⟩
    rcases findEntry_mem_pair _ _ _ hfe with ⟨p, hpm, hp1, hp2⟩
    have hself : selectLineFromEntry definitions fe prefs ∈
        definitions.map (·.line) := by
      rcases selectLineFromEntry_mem definitions fe prefs with hpp | hll
      · rw [hpp, ← hp2]
        exact (linesFrom_build definitions p hpm).1
      · refine (linesFrom_build definitions p hpm).2 _ ?_
        rw [hp2]
        exact hll
    refine ⟨selectLineFromEntry definitions fe prefs, firstMatch :: more,
      ?_, rfl, ?_⟩
    · simp only [lookupLineForTrain]
      rw [hexact, hms]
      simp [hne, hfe]
    · exact addTrainNumber_mem definitions _ trainNumber hself

/-- Witness for claim C1 at the spec's concrete input: knowledge base with
"70010" on line "S4", lookup of the unknown "70019" in an article mentioning
S4 and S12. -/
theorem lookupLineForTrain_fallback_persists_witness :
    ∃ sel ms, lookupLineForTrain [⟨"S4", ["70010"], none⟩] "70019"
        (some ["S4", "S12"]) =
      .fallbackApplied sel ms
        (addTrainNumberToLineDefinition [⟨"S4", ["70010"], none⟩] sel "70019") ∧
      ms = findMatchingTrainsWithoutLastDigit
          (buildTrainLineMapping [⟨"S4", ["70010"], none⟩]) "70019" ∧
      ∃ d ∈ addTrainNumberToLineDefinition [⟨"S4", ["70010"], none⟩] sel "70019",
        d.line = sel ∧ "70019" ∈ d.trainNumbers :=
  lookupLineForTrain_fallback_persists [⟨"S4", ["70010"], none⟩] "70019"
    (some ["S4", "S12"]) (by rfl) (by decide)

end KVV

namespace KVV

/-! ## C5: no-trips failure and all-or-nothing output -/

/-- If no segmented line satisfies a trip grammar, the trip loop returns the
empty list (and no error). -/
theorem parseTripsLoop_none (definitions : List TrainLineDefinition)
    (md : TripMetadata) :
    ∀ lines : List String, (∀ l ∈ lines, tripFields l = none) →
      parseTripsLoop definitions md lines = .ok ([], []) := by
  intro lines
  induction lines with
  | nil => intro _; rfl
  | cons line rest ih =>
    intro h
    have hline : tripFields line = none := h line (by simp)
    have hrest := ih (fun l hl => h l (by simp [hl]))
    simp only [parseTripsLoop, parseTripLine, hline, hrest]

/-- Claim C5: when segmentation and parsing yield zero valid trip records,
`parseDetailPage` raises the no-trips `ParseError` (uncaught inside the
parser); the result type is all-or-nothing by construction — either the full
list is returned or an error propagates. -/
theorem parseDetailPage_noTrips (definitions : List TrainLineDefinition)
    (html url : String) (clock : Clock)
    (h : ∀ l ∈ extractTripLines (stripHtml html), tripFields l = none) :
    parseDetailPage definitions html url clock = .error (.noTrips url) := by
  simp only [parseDetailPage]
  rw [parseTripsLoop_none _ _ _ h]
  rfl

/-- Witness for claim C5: HTML with a trip-section marker but no parseable
trip lines. -/
theorem parseDetailPage_noTrips_witness :
    parseDetailPage [] "<p>Betroffene Fahrten:</p><p>bla</p>" "u"
        ⟨"2025-01-01T00:00:00.000Z", 2025⟩ = .error (.noTrips "u") :=
  parseDetailPage_noTrips [] "<p>Betroffene Fahrten:</p><p>bla</p>" "u"
    ⟨"2025-01-01T00:00:00.000Z", 2025⟩ (by decide)

/-! ## Sorting lemmas for the store -/

/-- Insertion preserves sortedness for a transitive, total comparator. -/
theorem insortBy_pairwise {α : Type} (le : α → α → Bool)
    (htrans : ∀ a b c, le a b = true → le b c = true → le a c = true)
    (htot : ∀ a b, le a b = true ∨ le b a = true) (x : α) :
    ∀ l : List α, l.Pairwise (fun a b => le a b = true) →
      (insortBy le x l).Pairwise (fun a b => le a b = true) := by
  intro l
  induction l with
  | nil => intro _; simp [insortBy]
  | cons y ys ih =>
    intro hl
    rcases List.pairwise_cons.mp hl with ⟨hy, hys⟩
    by_cases h : le x y
    · rw [insortBy, if_pos h]
      refine List.pairwise_cons.mpr ⟨?_, hl⟩
      intro z hz
      rcases List.mem_cons.mp hz with hz1 | hz2
      · rw [hz1]; exact h
      · exact htrans x y z h (hy z hz2)
    · rw [insortBy, if_neg h]
      refine List.pairwise_cons.mpr ⟨?_, ih hys⟩
      intro z hz
      rcases (mem_insortBy le x z ys).mp hz with hz1 | hz2
      · rw [hz1]
        rcases htot x y with hxy | hyx
        · exact absurd hxy h
        · exact hyx
      · exact hy z hz2

/-- The stable sort produces a sorted list. -/
theorem sortBy_pairwise {α : Type} (le : α → α → Bool)
    (htrans : ∀ a b c, le a b = true → le b c = true → le a c = true)
    (htot : ∀ a b, le a b = true ∨ le b a = true) :
    ∀ l : List α, (sortBy le l).Pairwise (fun a b => le a b = true) := by
  intro l
  induction l with
  | nil => simp [sortBy]
  | cons y ys ih =>
    show (insortBy le y (sortBy le ys)).Pairwise _
    exact insortBy_pairwise le htrans htot y _ ih

/-- Sorting a sorted list is the identity (stability). -/
theorem sortBy_eq_self {α : Type} (le : α → α → Bool) :
    ∀ l : List α, l.Pairwise (fun a b => le a b = true) → sortBy le l = l := by
  intro l
  induction l with
  | nil => intro _; rfl
  | cons y ys ih =>
    intro hl
    rcases List.pairwise_cons.mp hl with ⟨hy, hys⟩
    show insortBy le y (sortBy le ys) = y :: ys
    rw [ih hys]
    cases ys with
    | nil => rfl
    | cons z zs =>
      rw [insortBy, if_pos (hy z (by simp))]

/-- The stable sort is idempotent. -/
theorem sortBy_idem {α : Type} (le : α → α → Bool)
    (htrans : ∀ a b c, le a b = true → le b c = true → le a c = true)
    (htot : ∀ a b, le a b = true ∨ le b a = true) (l : List α) :
    sortBy le (sortBy le l) = sortBy le l :=
  sortBy_eq_self le _ (sortBy_pairwise le htrans htot l)

/-- The lexicographic key of `sortDeterministic`. -/
def cancKey (a : Cancellation) : Lex (String × Lex (String × String)) :=
  toLex (a.date, toLex (a.fromTime, a.trainNumber))

/-- The comparator order agrees with the lexicographic key order. -/
theorem cancLe_iff (a b : Cancellation) :
    cancLe a b = true ↔ cancKey a ≤ cancKey b := by
  unfold cancLe cancKey
  rw [Prod.Lex.le_iff]
  by_cases h1 : a.date = b.date
  · rw [if_pos h1]
    rw [Prod.Lex.le_iff]
    by_cases h2 : a.fromTime = b.fromTime
    · rw [if_pos h2]
      simp [h1, h2, lt_irrefl]
    · rw [if_neg h2]
      simp only [h1, lt_irrefl, false_or, true_and, decide_eq_true_eq]
      constructor
      · intro hle
        left
        exact lt_of_le_of_ne hle h2
      · rintro (hlt | ⟨heq, _⟩)
        · exact le_of_lt hlt
        · exact absurd heq h2
  · rw [if_neg h1]
    simp only [h1, false_and, or_false, decide_eq_true_eq]
    constructor
    · intro hle
      exact lt_of_le_of_ne hle h1
    · intro hlt
      exact le_of_lt hlt

theorem cancLe_trans (a b c : Cancellation) (h1 : cancLe a b = true)
    (h2 : cancLe b c = true) : cancLe a c = true := by
  rw [cancLe_iff] at *
  exact le_trans h1 h2

theorem cancLe_total (a b : Cancellation) :
    cancLe a b = true ∨ cancLe b a = true := by
  rw [cancLe_iff, cancLe_iff]
  exact le_total _ _

/-! ## Disk lemmas -/

theorem lookupDisk_updateDisk_self (d : Disk) (p : String) (v : FileContent) :
    lookupDisk (updateDisk d p v) p = some v := by
  induction d with
  | nil => simp [updateDisk, lookupDisk]
  | cons e rest ih =>
    obtain ⟨q, w⟩ := e
    by_cases h : q = p
    · simp [updateDisk, h, lookupDisk, List.find?_cons]
    · simp only [updateDisk, if_neg h]
      simpa [lookupDisk, List.find?_cons, h] using ih

theorem updateDisk_same (d : Disk) (p : String) (v : FileContent)
    (h : lookupDisk d p = some v) : updateDisk d p v = d := by
  induction d with
  | nil => simp [lookupDisk] at h
  | cons e rest ih =>
    obtain ⟨q, w⟩ := e
    by_cases hq : q = p
    · have : w = v := by
        simpa [lookupDisk, List.find?_cons, hq] using h
      simp [updateDisk, hq, this]
    · rw [updateDisk, if_neg hq]
      rw [ih (by simpa [lookupDisk, List.find?_cons, hq] using h)]

/-- Projection lemmas for the fresh bucket. -/
theorem freshBucket_key (disk : Disk) (baseDir : String) (trip : Cancellation) :
    (freshBucket disk baseDir trip).key =
      bucketKey (jsSlice trip.date 4) trip.line := rfl

theorem freshBucket_filePath (disk : Disk) (baseDir : String)
    (trip : Cancellation) : (freshBucket disk baseDir trip).filePath =
      bucketPath baseDir (jsSlice trip.date 4) trip.line := rfl

theorem freshBucket_entries (disk : Disk) (baseDir : String)
    (trip : Cancellation) : (freshBucket disk baseDir trip).entries =
      loadExisting disk (bucketPath baseDir (jsSlice trip.date 4) trip.line) :=
  rfl

theorem mergeTrip_key (b : Bucket) (t : Cancellation) :
    (mergeTrip b t).key = b.key := by
  unfold mergeTrip
  split <;> rfl

theorem mergeTrip_filePath (b : Bucket) (t : Cancellation) :
    (mergeTrip b t).filePath = b.filePath := by
  unfold mergeTrip
  split <;> rfl

theorem mergeTrip_entries (b : Bucket) (t : Cancellation) :
    (mergeTrip b t).entries =
      if b.entries.any (fun existing => isDuplicate existing t) then b.entries
      else b.entries ++ [t] := by
  unfold mergeTrip
  split <;> simp_all

theorem mergeTrip_pos (b : Bucket) (t : Cancellation)
    (h : b.entries.any (fun existing => isDuplicate existing t) = true) :
    mergeTrip b t = { b with duplicates := b.duplicates + 1 } := by
  unfold mergeTrip
  rw [if_pos h]

/-- The single bucket produced by storing one record. -/
def singleBucket (disk : Disk) (baseDir : String) (trip : Cancellation) :
    Bucket :=
  mergeTrip (freshBucket disk baseDir trip) trip

theorem singleBucket_filePath (disk : Disk) (baseDir : String)
    (trip : Cancellation) : (singleBucket disk baseDir trip).filePath =
      bucketPath baseDir (jsSlice trip.date 4) trip.line := by
  rw [singleBucket, mergeTrip_filePath, freshBucket_filePath]

/-- Storing one record writes exactly its bucket. -/
theorem saveCancellations_single (disk : Disk) (baseDir : String)
    (trip : Cancellation) :
    saveCancellations disk baseDir [trip] =
      ⟨updateDisk disk (singleBucket disk baseDir trip).filePath
          (.valid (sortBy cancLe (singleBucket disk baseDir trip).entries)),
        [singleBucket disk baseDir trip]⟩ := rfl

/-! ## C8: the deduplicating store -/

/-- Claim C8: the duplicate key is exactly the (date, trainNumber, fromTime)
triple; a record is appended to a bucket only when no existing entry shares
the triple; and running the store a second time with an identical record
reports one duplicate, adds zero records, and leaves the file system
unchanged. -/
theorem storage_dedup_idempotent :
    (∀ a b : Cancellation, isDuplicate a b = true ↔
      (a.date = b.date ∧ a.trainNumber = b.trainNumber ∧
        a.fromTime = b.fromTime)) ∧
    (∀ (b : Bucket) (trip : Cancellation),
      mergeTrip b trip =
        if b.entries.any (fun existing => isDuplicate existing trip) then
          { b with duplicates := b.duplicates + 1 }
        else { b with entries := b.entries ++ [trip], added := b.added + 1 }) ∧
    (∀ (disk : Disk) (baseDir : String) (trip : Cancellation),
      totalAdded (saveCancellations
          (saveCancellations disk baseDir [trip]).disk baseDir [trip]).buckets = 0 ∧
      totalDuplicates (saveCancellations
          (saveCancellations disk baseDir [trip]).disk baseDir [trip]).buckets = 1 ∧
      (saveCancellations
          (saveCancellations disk baseDir [trip]).disk baseDir [trip]).disk =
        (saveCancellations disk baseDir [trip]).disk) := by
  refine ⟨?_, ?_, ?_⟩
  · intro a b
    simp [isDuplicate, and_assoc]
  · intro b trip
    rfl
  · intro disk baseDir trip
    have hfile : (singleBucket disk baseDir trip).filePath =
        bucketPath baseDir (jsSlice trip.date 4) trip.line :=
      singleBucket_filePath disk baseDir trip
    have hdupS : (sortBy cancLe (singleBucket disk baseDir trip).entries).any
        (fun existing => isDuplicate existing trip) = true := by
      rw [List.any_eq_true]
      by_cases hdup : (loadExisting disk
          (bucketPath baseDir (jsSlice trip.date 4) trip.line)).any
          (fun existing => isDuplicate existing trip) = true
      · rcases List.any_eq_true.mp hdup with ⟨e, he, hde⟩
        refine ⟨e, ?_, hde⟩
        rw [mem_sortBy, singleBucket, mergeTrip_entries, freshBucket_entries,
          if_pos hdup]
        exact he
      · refine ⟨trip, ?_, by simp [isDuplicate]⟩
        rw [mem_sortBy, singleBucket, mergeTrip_entries, freshBucket_entries,
          if_neg hdup]
        simp
    have hload : loadExisting
        (updateDisk disk (singleBucket disk baseDir trip).filePath
          (.valid (sortBy cancLe (singleBucket disk baseDir trip).entries)))
        (bucketPath baseDir (jsSlice trip.date 4) trip.line) =
        sortBy cancLe (singleBucket disk baseDir trip).entries := by
      rw [← hfile, loadExisting, lookupDisk_updateDisk_self]
    have hfresh2 : freshBucket
        (updateDisk disk (singleBucket disk baseDir trip).filePath
          (.valid (sortBy cancLe (singleBucket disk baseDir trip).entries)))
        baseDir trip =
        ⟨bucketKey (jsSlice trip.date 4) trip.line, jsSlice trip.date 4,
          trip.line, bucketPath baseDir (jsSlice trip.date 4) trip.line,
          sortBy cancLe (singleBucket disk baseDir trip).entries, 0, 0⟩ := by
      rw [freshBucket, hload]
    have hcond : (freshBucket
        (updateDisk disk (singleBucket disk baseDir trip).filePath
          (.valid (sortBy cancLe (singleBucket disk baseDir trip).entries)))
        baseDir trip).entries.any
          (fun existing => isDuplicate existing trip) = true := by
      rw [hfresh2]
      exact hdupS
    have hb2 : singleBucket
        (updateDisk disk (singleBucket disk baseDir trip).filePath
          (.valid (sortBy cancLe (singleBucket disk baseDir trip).entries)))
        baseDir trip =
        ⟨bucketKey (jsSlice trip.date 4) trip.line, jsSlice trip.date 4,
          trip.line, bucketPath baseDir (jsSlice trip.date 4) trip.line,
          sortBy cancLe (singleBucket disk baseDir trip).entries, 0, 1⟩ := by
      rw [singleBucket, mergeTrip_pos _ _ hcond, hfresh2]
    rw [saveCancellations_single disk baseDir trip]
    simp only
    rw [saveCancellations_single, hb2]
    refine ⟨rfl, rfl, ?_⟩
    simp only
    rw [sortBy_idem cancLe cancLe_trans cancLe_total]
    rw [← hfile]
    exact updateDisk_same _ _ _
      (lookupDisk_updateDisk_self disk (singleBucket disk baseDir trip).filePath
        (.valid (sortBy cancLe (singleBucket disk baseDir trip).entries)))

end KVV

namespace KVV

/-! ## C10: corrupt or missing bucket files -/

/-- First bucket stored under a key. -/
def bucketFind (bs : List Bucket) (key : String) : Option Bucket :=
  bs.find? (fun b => b.key = key)

/-- The trips that fall into a given bucket key. -/
def tripsForKey (key : String) (trips : List Cancellation) :
    List Cancellation :=
  trips.filter (fun t => bucketKey (jsSlice t.date 4) t.line = key)

/-- Merging a list of trips into an entry list, in order, skipping
duplicates. -/
def dedupMerge (start : List Cancellation) (ts : List Cancellation) :
    List Cancellation :=
  ts.foldl
    (fun acc t =>
      if acc.any (fun existing => isDuplicate existing t) then acc
      else acc ++ [t]) start

/-- The file path determined by a bucket key. -/
def keyPath (baseDir key : String) : String := baseDir ++ "/" ++ key ++ ".json"

theorem bucketPath_eq_keyPath (baseDir year line : String) :
    bucketPath baseDir year line = keyPath baseDir (bucketKey year line) := by
  unfold bucketPath keyPath bucketKey
  apply String.ext
  simp [String.data_append, List.append_assoc]

theorem keyPath_inj (baseDir k₁ k₂ : String)
    (h : keyPath baseDir k₁ = keyPath baseDir k₂) : k₁ = k₂ := by
  unfold keyPath at h
  have hd := congrArg String.data h
  simp only [String.data_append, List.append_assoc] at hd
  have h₁ := List.append_cancel_left hd
  have h₂ := List.append_cancel_left h₁
  have h₃ := List.append_cancel_right h₂
  exact String.ext h₃

theorem foldl_mergeTrip_key (ts : List Cancellation) :
    ∀ b : Bucket, (ts.foldl mergeTrip b).key = b.key := by
  induction ts with
  | nil => intro b; rfl
  | cons t rest ih =>
    intro b
    rw [List.foldl_cons, ih, mergeTrip_key]

theorem foldl_mergeTrip_filePath (ts : List Cancellation) :
    ∀ b : Bucket, (ts.foldl mergeTrip b).filePath = b.filePath := by
  induction ts with
  | nil => intro b; rfl
  | cons t rest ih =>
    intro b
    rw [List.foldl_cons, ih, mergeTrip_filePath]

theorem foldl_mergeTrip_entries (ts : List Cancellation) :
    ∀ b : Bucket, (ts.foldl mergeTrip b).entries = dedupMerge b.entries ts := by
  induction ts with
  | nil => intro b; rfl
  | cons t rest ih =>
    intro b
    rw [List.foldl_cons, ih]
    unfold dedupMerge
    rw [List.foldl_cons, mergeTrip_entries]

theorem updateBuckets_find_eq (t : Cancellation) :
    ∀ (bs : List Bucket) (k : String),
      bucketFind (updateBuckets bs k t) k =
        (bucketFind bs k).map (fun b => mergeTrip b t) := by
  intro bs
  induction bs with
  | nil => intro k; rfl
  | cons b rest ih =>
    intro k
    by_cases hb : b.key = k
    · rw [updateBuckets, if_pos hb]
      unfold bucketFind
      rw [List.find?_cons, List.find?_cons]
      simp [mergeTrip_key, hb]
    · rw [updateBuckets, if_neg hb]
      unfold bucketFind
      rw [List.find?_cons, List.find?_cons]
      rw [decide_eq_false hb]
      exact ih k

theorem updateBuckets_find_ne (t : Cancellation) :
    ∀ (bs : List Bucket) (k key : String), k ≠ key →
      bucketFind (updateBuckets bs k t) key = bucketFind bs key := by
  intro bs
  induction bs with
  | nil => intro k key _; rfl
  | cons b rest ih =>
    intro k key hk
    by_cases hb : b.key = k
    · rw [updateBuckets, if_pos hb]
      unfold bucketFind
      rw [List.find?_cons, List.find?_cons]
      have h1 : ((mergeTrip b t).key = key) = False := by
        simp [mergeTrip_key, hb, hk]
      have h2 : (b.key = key) = False := by simp [hb, hk]
      simp [h1, h2]
    · rw [updateBuckets, if_neg hb]
      unfold bucketFind
      rw [List.find?_cons, List.find?_cons]
      by_cases hk' : b.key = key
      · simp [hk']
      · rw [decide_eq_false hk']
        exact ih k key hk

theorem bucketFind_eq_none_of_not_any (bs : List Bucket) (k : String)
    (h : bs.any (fun b => b.key = k) = false) : bucketFind bs k = none := by
  unfold bucketFind
  rw [List.find?_eq_none]
  intro b hb
  intro hk
  rw [List.any_eq_false] at h
  exact absurd hk (h b hb)

/-- Where one trip lands: the bucket under its key is merged (created from
the disk when absent); other keys are untouched. -/
theorem processTrip_find (disk : Disk) (baseDir : String) (bs : List Bucket)
    (t : Cancellation) (key : String) :
    bucketFind (processTrip disk baseDir bs t) key =
      if bucketKey (jsSlice t.date 4) t.line = key then
        some (mergeTrip ((bucketFind bs key).getD (freshBucket disk baseDir t)) t)
      else bucketFind bs key := by
  unfold processTrip
  by_cases ha : bs.any (fun b => b.key = bucketKey (jsSlice t.date 4) t.line) = true
  · rw [if_pos ha]
    by_cases hk : bucketKey (jsSlice t.date 4) t.line = key
    · rw [if_pos hk, hk]
      rw [updateBuckets_find_eq]
      rcases List.any_eq_true.mp ha with ⟨b, hb, hkey⟩
      simp only [decide_eq_true_eq] at hkey
      have : ∃ x, bucketFind bs key = some x := by
        have : (bs.find? (fun b => b.key = key)).isSome := by
          rw [List.find?_isSome]
          exact ⟨b, hb, by simp [hkey, hk]⟩
        rcases Option.isSome_iff_exists.mp this with ⟨x, hx⟩
        exact ⟨x, hx⟩
      rcases this with ⟨x, hx⟩
      rw [hx]
      rfl
    · rw [if_neg hk]
      exact updateBuckets_find_ne t bs _ key hk
  · rw [if_neg ha]
    have ha' : bs.any (fun b => b.key = bucketKey (jsSlice t.date 4) t.line) = false :=
      Bool.not_eq_true _ ▸ (by simpa using ha)
    unfold bucketFind
    rw [List.find?_append]
    by_cases hk : bucketKey (jsSlice t.date 4) t.line = key
    · have hnone : bucketFind bs key = none := by
        rw [← hk]
        exact bucketFind_eq_none_of_not_any bs _ ha'
      unfold bucketFind at hnone
      rw [hnone, if_pos hk]
      simp [List.find?_cons, mergeTrip_key, freshBucket_key, hk]
    · rw [if_neg hk]
      have hsingle : List.find? (fun b => decide (b.key = key))
          [mergeTrip (freshBucket disk baseDir t) t] = none := by
        simp [List.find?_cons, mergeTrip_key, freshBucket_key, hk]
      rw [hsingle]
      exact Option.or_none

/-- The bucket under a key accumulates exactly the trips for that key, in
order. -/
theorem processTrips_find (disk : Disk) (baseDir : String) :
    ∀ (trips : List Cancellation) (bs : List Bucket) (key : String),
      bucketFind (trips.foldl (processTrip disk baseDir) bs) key =
        (tripsForKey key trips).foldl
          (fun ob t =>
            some (mergeTrip (ob.getD (freshBucket disk baseDir t)) t))
          (bucketFind bs key) := by
  intro trips
  induction trips with
  | nil => intro bs key; rfl
  | cons t rest ih =>
    intro bs key
    rw [List.foldl_cons]
    rw [ih]
    unfold tripsForKey
    rw [List.filter_cons]
    by_cases hk : bucketKey (jsSlice t.date 4) t.line = key
    · rw [decide_eq_true hk]
      rw [if_pos rfl, List.foldl_cons]
      rw [processTrip_find, if_pos hk]
    · rw [decide_eq_false hk]
      rw [if_neg (by simp)]
      rw [processTrip_find, if_neg hk]

theorem foldl_step_some (disk : Disk) (baseDir : String) :
    ∀ (ts : List Cancellation) (b : Bucket),
      (ts.foldl
        (fun ob t => some (mergeTrip (ob.getD (freshBucket disk baseDir t)) t))
        (some b)) = some (ts.foldl mergeTrip b) := by
  intro ts
  induction ts with
  | nil => intro b; rfl
  | cons t rest ih =>
    intro b
    rw [List.foldl_cons, List.foldl_cons]
    exact ih (mergeTrip b t)

end KVV

namespace KVV

/-! ## C10 continued: the write phase -/

theorem lookupDisk_updateDisk_ne (d : Disk) (p q : String) (v : FileContent)
    (h : p ≠ q) : lookupDisk (updateDisk d p v) q = lookupDisk d q := by
  induction d with
  | nil => simp [updateDisk, lookupDisk, List.find?_cons, decide_eq_false h]
  | cons e rest ih =>
    obtain ⟨r, w⟩ := e
    by_cases hr : r = p
    · subst hr
      rw [updateDisk, if_pos rfl]
      unfold lookupDisk
      rw [List.find?_cons, List.find?_cons, decide_eq_false h]
    · rw [updateDisk, if_neg hr]
      unfold lookupDisk
      rw [List.find?_cons, List.find?_cons]
      by_cases hq : r = q
      · rw [decide_eq_true hq]
      · rw [decide_eq_false hq]
        exact ih

/-- Bucket-list invariant maintained by the grouping loop: every bucket's
file path is determined by its key, and keys are unique. -/
def BucketsInv (baseDir : String) (bs : List Bucket) : Prop :=
  (∀ b ∈ bs, b.filePath = keyPath baseDir b.key) ∧
    (bs.map (fun b => b.key)).Nodup

theorem updateBuckets_shape (k : String) (t : Cancellation) :
    ∀ (bs : List Bucket) (b' : Bucket), b' ∈ updateBuckets bs k t →
      ∃ b ∈ bs, b'.key = b.key ∧ b'.filePath = b.filePath := by
  intro bs
  induction bs with
  | nil => intro b' h; cases h
  | cons b rest ih =>
    intro b' h
    by_cases hb : b.key = k
    · rw [updateBuckets, if_pos hb] at h
      rcases List.mem_cons.mp h with h1 | h2
      · exact ⟨b, by simp, by rw [h1, mergeTrip_key], by rw [h1, mergeTrip_filePath]⟩
      · exact ⟨b', by simp [h2], rfl, rfl⟩
    · rw [updateBuckets, if_neg hb] at h
      rcases List.mem_cons.mp h with h1 | h2
      · exact ⟨b, by simp, by rw [h1], by rw [h1]⟩
      · rcases ih b' h2 with ⟨b₀, hb₀, hk, hp⟩
        exact ⟨b₀, by simp [hb₀], hk, hp⟩

theorem updateBuckets_map_key (k : String) (t : Cancellation) :
    ∀ bs : List Bucket,
      (updateBuckets bs k t).map (fun b => b.key) =
        bs.map (fun b => b.key) := by
  intro bs
  induction bs with
  | nil => rfl
  | cons b rest ih =>
    by_cases hb : b.key = k
    · rw [updateBuckets, if_pos hb]
      simp [mergeTrip_key]
    · rw [updateBuckets, if_neg hb]
      simp [ih]

theorem processTrip_inv (disk : Disk) (baseDir : String) (bs : List Bucket)
    (t : Cancellation) (hinv : BucketsInv baseDir bs) :
    BucketsInv baseDir (processTrip disk baseDir bs t) := by
  rcases hinv with ⟨hpath, hnodup⟩
  unfold processTrip
  by_cases ha : bs.any (fun b => b.key = bucketKey (jsSlice t.date 4) t.line) = true
  · rw [if_pos ha]
    constructor
    · intro b' hb'
      rcases updateBuckets_shape _ t bs b' hb' with ⟨b, hb, hk, hp⟩
      rw [hp, hk]
      exact hpath b hb
    · rw [updateBuckets_map_key]
      exact hnodup
  · rw [if_neg ha]
    have ha' : bs.any (fun b => b.key = bucketKey (jsSlice t.date 4) t.line) = false := by
      simpa using ha
    constructor
    · intro b' hb'
      rcases List.mem_append.mp hb' with h1 | h2
      · exact hpath b' h1
      · simp only [List.mem_singleton] at h2
        rw [h2, mergeTrip_filePath, mergeTrip_key, freshBucket_filePath,
          freshBucket_key]
        exact bucketPath_eq_keyPath baseDir _ _
    · rw [List.map_append]
      rw [List.nodup_append]
      refine ⟨hnodup, by simp, ?_⟩
      intro x hx hy
      simp only [List.map_cons, List.map_nil, List.mem_singleton] at hy
      rw [mergeTrip_key, freshBucket_key] at hy
      rw [List.any_eq_false] at ha'
      rcases List.mem_map.mp hx with ⟨b, hb, hbk⟩
      exact ha' b hb (by simp [hbk, hy])

theorem processTrips_inv (disk : Disk) (baseDir : String) :
    ∀ (trips : List Cancellation) (bs : List Bucket),
      BucketsInv baseDir bs →
      BucketsInv baseDir (trips.foldl (processTrip disk baseDir) bs) := by
  intro trips
  induction trips with
  | nil => intro bs h; exact h
  | cons t rest ih =>
    intro bs h
    exact ih _ (processTrip_inv disk baseDir bs t h)

/-- After the write fold, the file under a bucket key holds exactly that
bucket's sorted entries; paths without a bucket are untouched. -/
theorem writeFold_lookup (baseDir : String) :
    ∀ (bs : List Bucket) (d : Disk) (key : String),
      BucketsInv baseDir bs →
      lookupDisk (bs.foldl writeBucket d) (keyPath baseDir key) =
        (match bucketFind bs key with
         | some b => some (.valid (sortBy cancLe b.entries))
         | none => lookupDisk d (keyPath baseDir key)) := by
  intro bs
  induction bs with
  | nil => intro d key _; rfl
  | cons b rest ih =>
    intro d key hinv
    rcases hinv with ⟨hpath, hnodup⟩
    have hnd : (∀ x ∈ rest, ¬x.key = b.key) ∧
        (rest.map (fun b => b.key)).Nodup := by simpa using hnodup
    rw [List.foldl_cons]
    rw [ih _ key ⟨fun b' hb' => hpath b' (by simp [hb']), hnd.2⟩]
    unfold bucketFind
    rw [List.find?_cons]
    by_cases hb : b.key = key
    · rw [decide_eq_true hb]
      have hrest : rest.find? (fun b' => decide (b'.key = key)) = none := by
        rw [List.find?_eq_none]
        intro b' hb' hk
        simp only [decide_eq_true_eq] at hk
        exact hnd.1 b' hb' (hk.trans hb.symm)
      rw [hrest]
      rw [writeBucket, hpath b (by simp), hb,
        lookupDisk_updateDisk_self]
    · rw [decide_eq_false hb]
      cases hfind : rest.find? (fun b => decide (b.key = key)) with
      | some b' => rfl
      | none =>
        rw [writeBucket, hpath b (by simp)]
        rw [lookupDisk_updateDisk_ne d _ _ _
          (fun h => hb (keyPath_inj baseDir _ _ h))]

/-- Claim C10: a bucket whose existing file is missing, unreadable or not a
JSON array is loaded as the empty list (no error escapes `loadExisting`),
and the store then writes that bucket's file as exactly the sorted
deduplicated merge of the run's own records for that bucket. -/
theorem saveCancellations_corrupt_bucket (disk : Disk) (baseDir : String)
    (trips : List Cancellation) (year line : String)
    (hbad : ∀ v, lookupDisk disk (bucketPath baseDir year line) ≠
      some (.valid v))
    (hsome : tripsForKey (bucketKey year line) trips ≠ []) :
    loadExisting disk (bucketPath baseDir year line) = [] ∧
    lookupDisk (saveCancellations disk baseDir trips).disk
        (bucketPath baseDir year line) =
      some (.valid (sortBy cancLe
        (dedupMerge [] (tripsForKey (bucketKey year line) trips)))) := by
  have hload0 : loadExisting disk (bucketPath baseDir year line) = [] := by
    unfold loadExisting
    match hlk : lookupDisk disk (bucketPath baseDir year line) with
    | none => rfl
    | some (.valid v) => exact absurd hlk (hbad v)
    | some .invalid => rfl
  refine ⟨hload0, ?_⟩
  match hts : tripsForKey (bucketKey year line) trips with
  | [] => exact absurd hts hsome
  | t :: ts =>
    have htmem : t ∈ tripsForKey (bucketKey year line) trips := by
      rw [hts]; simp
    have htkey : bucketKey (jsSlice t.date 4) t.line = bucketKey year line := by
      have := List.mem_filter.mp htmem
      simpa using this.2
    have htpath : bucketPath baseDir (jsSlice t.date 4) t.line =
        bucketPath baseDir year line := by
      rw [bucketPath_eq_keyPath, bucketPath_eq_keyPath, htkey]
    have hfind : bucketFind
        (processTrips disk baseDir trips) (bucketKey year line) =
        some (ts.foldl mergeTrip (mergeTrip (freshBucket disk baseDir t) t)) := by
      unfold processTrips
      rw [processTrips_find disk baseDir trips [] (bucketKey year line)]
      rw [hts]
      rw [show bucketFind [] (bucketKey year line) = none from rfl]
      rw [List.foldl_cons]
      rw [show (some (mergeTrip ((none : Option Bucket).getD
          (freshBucket disk baseDir t)) t)) =
        some (mergeTrip (freshBucket disk baseDir t) t) from rfl]
      exact foldl_step_some disk baseDir ts _
    have hinv : BucketsInv baseDir (processTrips disk baseDir trips) :=
      processTrips_inv disk baseDir trips []
        ⟨fun b hb => absurd hb (List.not_mem_nil b), List.nodup_nil⟩
    have hwrite := writeFold_lookup baseDir (processTrips disk baseDir trips)
      disk (bucketKey year line) hinv
    rw [bucketPath_eq_keyPath]
    show lookupDisk ((processTrips disk baseDir trips).foldl writeBucket disk)
        (keyPath baseDir (bucketKey year line)) = _
    rw [hwrite, hfind]
    have hentries : (ts.foldl mergeTrip
        (mergeTrip (freshBucket disk baseDir t) t)).entries =
        dedupMerge [] (t :: ts) := by
      rw [foldl_mergeTrip_entries]
      rw [mergeTrip_entries, freshBucket_entries, htpath, hload0]
      unfold dedupMerge
      rw [List.foldl_cons]
    simp only
    rw [hentries, ← hts]

/-- Witness for claim C10: a disk holding an unparsable bucket file, and one
record falling into that bucket. -/
theorem saveCancellations_corrupt_bucket_witness :
    loadExisting [("d/2025/S5.json", .invalid)] "d/2025/S5.json" = [] ∧
    lookupDisk (saveCancellations [("d/2025/S5.json", .invalid)] "d"
        [⟨"S5", "2025-04-12", "st", "123", "A", "10:30", "B", "11:00", "u",
          "c"⟩]).disk "d/2025/S5.json" =
      some (.valid (sortBy cancLe (dedupMerge []
        (tripsForKey (bucketKey "2025" "S5")
          [⟨"S5", "2025-04-12", "st", "123", "A", "10:30", "B", "11:00", "u",
            "c"⟩])))) :=
  saveCancellations_corrupt_bucket [("d/2025/S5.json", .invalid)] "d"
    [⟨"S5", "2025-04-12", "st", "123", "A", "10:30", "B", "11:00", "u", "c"⟩]
    "2025" "S5"
    (by
      intro v hv
      rw [show lookupDisk [("d/2025/S5.json", FileContent.invalid)]
        (bucketPath "d" "2025" "S5") = some .invalid from rfl] at hv
      simp at hv)
    (by decide)

end KVV

namespace KVV

/-! ## C9: parse determinism across clock readings -/

/-- Erase the capture timestamp of a record. -/
def scrubTrip (c : Cancellation) : Cancellation := { c with capturedAt := "" }

/-- Erase the capture timestamps inside a trip-loop result. -/
def scrubPair :
    Except FallbackErr (List Cancellation × List Observation) →
      Except FallbackErr (List Cancellation × List Observation)
  | .error e => .error e
  | .ok (trips, obs) => .ok (trips.map scrubTrip, obs)

/-- Erase the capture timestamps inside a `parseDetailPage` result. -/
def scrubResult :
    Except ParseErr (List Cancellation × List Observation) →
      Except ParseErr (List Cancellation × List Observation)
  | .error e => .error e
  | .ok (trips, obs) => .ok (trips.map scrubTrip, obs)

theorem digit_ne_dot (c : Char) (h : c.isDigit = true) : c ≠ '.' := by
  intro hc
  rw [hc] at h
  exact absurd h (by decide)

/-- A date capture always splits into exactly three components. -/
theorem parseDate10_split (l dc r : List Char)
    (h : parseDate10 l = some (dc, r)) :
    ∃ p₁ p₂ p₃, splitOnCharL '.' dc = [p₁, p₂, p₃] := by
  unfold parseDate10 at h
  split at h
  case _ a b c d e f g h₀ r₀ =>
    split at h
    case isTrue hdig =>
      simp only [Bool.and_eq_true] at hdig
      obtain ⟨⟨⟨⟨⟨⟨⟨ha, hb⟩, hc⟩, hd⟩, he⟩, hf⟩, hg⟩, hh⟩ := hdig
      rw [Option.some_inj, Prod.mk.injEq] at h
      obtain ⟨hdc, -⟩ := h
      refine ⟨[a, b], [c, d], [e, f, g, h₀], ?_⟩
      rw [← hdc]
      simp [splitOnCharL, digit_ne_dot _ ha, digit_ne_dot _ hb,
        digit_ne_dot _ hc, digit_ne_dot _ hd, digit_ne_dot _ he,
        digit_ne_dot _ hf, digit_ne_dot _ hg, digit_ne_dot _ hh]
    case isFalse => exact absurd h (by simp)
  case _ => exact absurd h (by simp)

theorem tryStandAt_split (l dc tc : List Char)
    (h : tryStandAt l = some (dc, tc)) :
    ∃ p₁ p₂ p₃, splitOnCharL '.' dc = [p₁, p₂, p₃] := by
  unfold tryStandAt at h
  split at h
  case _ => exact absurd h (by simp)
  case _ r =>
    dsimp only at h
    split at h
    case isTrue => exact absurd h (by simp)
    case isFalse =>
      split at h
      case _ => exact absurd h (by simp)
      case _ dc₀ r₂ hdate =>
        split at h
        case isTrue => exact absurd h (by simp)
        case isFalse =>
          split at h
          case _ p q u v w x rest =>
            split at h
            case isTrue =>
              rw [Option.some_inj, Prod.mk.injEq] at h
              obtain ⟨hdc, -⟩ := h
              rw [← hdc]
              exact parseDate10_split _ _ _ hdate
            case isFalse => exact absurd h (by simp)
          case _ => exact absurd h (by simp)

theorem tryStandAltAt_split (l dc tc : List Char)
    (h : tryStandAltAt l = some (dc, tc)) :
    ∃ p₁ p₂ p₃, splitOnCharL '.' dc = [p₁, p₂, p₃] := by
  unfold tryStandAltAt at h
  split at h
  case _ dc₀ r hdate =>
    dsimp only at h
    split at h
    case _ p q u v r₂ =>
      split at h
      case isTrue =>
        split at h
        case _ =>
          rw [Option.some_inj, Prod.mk.injEq] at h
          obtain ⟨hdc, -⟩ := h
          rw [← hdc]
          exact parseDate10_split _ _ _ hdate
        case _ => exact absurd h (by simp)
      case isFalse => exact absurd h (by simp)
    case _ => exact absurd h (by simp)
  case _ => exact absurd h (by simp)

theorem searchStand_split (l dc tc : List Char)
    (h : searchStand l = some (dc, tc)) :
    ∃ p₁ p₂ p₃, splitOnCharL '.' dc = [p₁, p₂, p₃] := by
  induction l with
  | nil => exact absurd h (by simp [searchStand])
  | cons c rest ih =>
    rw [searchStand] at h
    split at h
    · exact tryStandAt_split _ _ _ (by rw [← h]; assumption)
    · exact ih h

theorem searchStandAlt_split (l dc tc : List Char)
    (h : searchStandAlt l = some (dc, tc)) :
    ∃ p₁ p₂ p₃, splitOnCharL '.' dc = [p₁, p₂, p₃] := by
  induction l with
  | nil => exact absurd h (by simp [searchStandAlt])
  | cons c rest ih =>
    rw [searchStandAlt] at h
    split at h
    · exact tryStandAltAt_split _ _ _ (by rw [← h]; assumption)
    · exact ih h

/-- When the date capture has all three components, the rendered stand does
not depend on the clock (the clock is only the fallback for a missing year
component). -/
theorem parseGermanDateTime_indep (c₁ c₂ : Clock) (dc : List Char)
    (timeStr : String) (hsplit : ∃ p₁ p₂ p₃, splitOnCharL '.' dc = [p₁, p₂, p₃]) :
    parseGermanDateTime c₁ (String.mk dc) timeStr =
      parseGermanDateTime c₂ (String.mk dc) timeStr := by
  rcases hsplit with ⟨p₁, p₂, p₃, hs⟩
  simp only [parseGermanDateTime]
  rw [hs]
  rfl

/-- With a declared status timestamp, `extractStand` is clock-independent. -/
theorem extractStand_indep (text : String) (c₁ c₂ : Clock)
    (h : standDeclared text = true) :
    extractStand c₁ text = extractStand c₂ text := by
  unfold extractStand
  cases hs : searchStand text.data with
  | some dctc =>
    obtain ⟨dc, tc⟩ := dctc
    dsimp only
    rw [parseGermanDateTime_indep c₁ c₂ dc _ (searchStand_split _ _ _ hs)]
  | none =>
    cases ha : searchStandAlt text.data with
    | some dctc =>
      obtain ⟨dc, tc⟩ := dctc
      dsimp only
      rw [parseGermanDateTime_indep c₁ c₂ dc _ (searchStandAlt_split _ _ _ ha)]
    | none =>
      rw [standDeclared, hs, ha] at h
      simp at h

/-- The trip loop is clock-independent up to capture timestamps. -/
theorem parseTripsLoop_capturedAt (definitions : List TrainLineDefinition)
    (line : String) (mls : List String) (count : Nat)
    (date stand url cap₁ cap₂ : String) :
    ∀ lines : List String,
      scrubPair (parseTripsLoop definitions
        ⟨line, mls, count, date, stand, url, cap₁⟩ lines) =
      scrubPair (parseTripsLoop definitions
        ⟨line, mls, count, date, stand, url, cap₂⟩ lines) := by
  intro lines
  induction lines with
  | nil => rfl
  | cons l rest ih =>
    cases htf : tripFields l with
    | none =>
      simp only [parseTripsLoop, parseTripLine, htf]
      cases h₁ : parseTripsLoop definitions
          ⟨line, mls, count, date, stand, url, cap₁⟩ rest with
      | error e =>
        cases h₂ : parseTripsLoop definitions
            ⟨line, mls, count, date, stand, url, cap₂⟩ rest with
        | error e' =>
          rw [h₁, h₂] at ih
          simpa [scrubPair] using ih
        | ok p =>
          rw [h₁, h₂] at ih
          obtain ⟨t, o⟩ := p
          simp [scrubPair] at ih
      | ok p =>
        cases h₂ : parseTripsLoop definitions
            ⟨line, mls, count, date, stand, url, cap₂⟩ rest with
        | error e' =>
          rw [h₁, h₂] at ih
          obtain ⟨t, o⟩ := p
          simp [scrubPair] at ih
        | ok p' =>
          rw [h₁, h₂] at ih
          obtain ⟨t, o⟩ := p
          obtain ⟨t', o'⟩ := p'
          simpa [scrubPair] using ih
    | some c =>
      simp only [parseTripsLoop, parseTripLine, htf, buildCancellation]
      cases hr : resolveLineForTrip definitions c.trainNumber line mls count with
      | error e => rfl
      | ok ro =>
        obtain ⟨resolved, obs⟩ := ro
        simp only [Except.map]
        cases h₁ : parseTripsLoop definitions
            ⟨line, mls, count, date, stand, url, cap₁⟩ rest with
        | error e =>
          cases h₂ : parseTripsLoop definitions
              ⟨line, mls, count, date, stand, url, cap₂⟩ rest with
          | error e' =>
            rw [h₁, h₂] at ih
            simpa [scrubPair] using ih
          | ok p =>
            rw [h₁, h₂] at ih
            obtain ⟨t, o⟩ := p
            simp [scrubPair] at ih
        | ok p =>
          cases h₂ : parseTripsLoop definitions
              ⟨line, mls, count, date, stand, url, cap₂⟩ rest with
          | error e' =>
            rw [h₁, h₂] at ih
            obtain ⟨t, o⟩ := p
            simp [scrubPair] at ih
          | ok p' =>
            rw [h₁, h₂] at ih
            obtain ⟨t, o⟩ := p
            obtain ⟨t', o'⟩ := p'
            simp only [scrubPair, Except.ok.injEq, Prod.mk.injEq] at ih ⊢
            obtain ⟨iht, iho⟩ := ih
            refine ⟨?_, by rw [iho]⟩
            simp only [List.map_cons, iht, List.cons.injEq]
            exact ⟨rfl, trivial⟩

end KVV

namespace KVV

/-- Scrubbing commutes with the closing step. -/
theorem finishParse_scrub (url : String)
    (r₁ r₂ : Except FallbackErr (List Cancellation × List Observation))
    (h : scrubPair r₁ = scrubPair r₂) :
    scrubResult (finishParse url r₁) = scrubResult (finishParse url r₂) := by
  cases r₁ with
  | error e =>
    cases r₂ with
    | error e' =>
      simp only [scrubPair, Except.error.injEq] at h
      rw [h]
    | ok p =>
      obtain ⟨t, o⟩ := p
      simp [scrubPair] at h
  | ok p =>
    obtain ⟨t, o⟩ := p
    cases r₂ with
    | error e' => simp [scrubPair] at h
    | ok p' =>
      obtain ⟨t', o'⟩ := p'
      simp only [scrubPair, Except.ok.injEq, Prod.mk.injEq] at h
      obtain ⟨ht, ho⟩ := h
      cases t with
      | nil =>
        cases t' with
        | nil => rw [ho]
        | cons a as => simp at ht
      | cons a as =>
        cases t' with
        | nil => simp at ht
        | cons a' as' =>
          simp only [finishParse, List.isEmpty_cons, Bool.false_eq_true,
            not_false_eq_true, if_neg, ite_false]
          simp only [scrubResult, Except.ok.injEq, Prod.mk.injEq]
          exact ⟨ht, ho⟩

/-- Amended claim C9: when the article declares a status timestamp (either
stand format matches), parsing the same HTML with two different clock
readings yields results identical in every record field except `capturedAt`
(and identical observations and errors). -/
theorem parseDetailPage_idem_modulo_capture
    (definitions : List TrainLineDefinition) (html url : String)
    (c₁ c₂ : Clock) (h : standDeclared (stripHtml html) = true) :
    scrubResult (parseDetailPage definitions html url c₁) =
      scrubResult (parseDetailPage definitions html url c₂) := by
  have hst := extractStand_indep (stripHtml html) c₁ c₂ h
  simp only [parseDetailPage]
  rw [hst]
  exact finishParse_scrub url _ _
    (parseTripsLoop_capturedAt definitions (extractLine (stripHtml html))
      (extractMentionedLines (stripHtml html))
      (extractMentionedLines (stripHtml html)).length
      (extractStand c₂ (stripHtml html)).dateForTrips
      (extractStand c₂ (stripHtml html)).standIso url c₁.nowIso c₂.nowIso
      (extractTripLines (stripHtml html)))

set_option maxRecDepth 8000 in
/-- Witness for amended claim C9: an article with a declared stand, parsed
under two different clocks. -/
theorem parseDetailPage_idem_modulo_capture_witness :
    scrubResult (parseDetailPage []
      "<p>Linie S5</p><p>Nach aktuellem Stand 12.04.2025 10:30:00</p><p>Betroffene Fahrten:</p><p>123 Karlsruhe Hbf (10:30 Uhr) - Bruchsal (11:00)</p>"
      "u" ⟨"2025-01-01T00:00:00.000Z", 2025⟩) =
    scrubResult (parseDetailPage []
      "<p>Linie S5</p><p>Nach aktuellem Stand 12.04.2025 10:30:00</p><p>Betroffene Fahrten:</p><p>123 Karlsruhe Hbf (10:30 Uhr) - Bruchsal (11:00)</p>"
      "u" ⟨"2025-06-02T12:00:00.000Z", 2025⟩) :=
  parseDetailPage_idem_modulo_capture []
    "<p>Linie S5</p><p>Nach aktuellem Stand 12.04.2025 10:30:00</p><p>Betroffene Fahrten:</p><p>123 Karlsruhe Hbf (10:30 Uhr) - Bruchsal (11:00)</p>"
    "u" ⟨"2025-01-01T00:00:00.000Z", 2025⟩ ⟨"2025-06-02T12:00:00.000Z", 2025⟩
    (by decide)

/-- Counterexample to claim C9 as stated for every HTML input: an article
with no declared status timestamp takes its `stand` (and `date`) from the
clock, so two runs disagree on `stand` and `date`, not only on
`capturedAt`. -/
theorem parseDetailPage_stand_from_clock_cx :
    parseDetailPage []
      "<p>Linie S5</p><p>Betroffene Fahrten:</p><p>123 Karlsruhe Hbf (10:30 Uhr) - Bruchsal (11:00)</p>"
      "u" ⟨"2025-01-01T00:00:00.000Z", 2025⟩ =
      .ok ([⟨"S5", "2025-01-01", "2025-01-01T00:00:00.000Z", "123",
        "Karlsruhe Hbf", "10:30", "Bruchsal", "11:00", "u",
        "2025-01-01T00:00:00.000Z"⟩], [("S5", "123")]) ∧
    parseDetailPage []
      "<p>Linie S5</p><p>Betroffene Fahrten:</p><p>123 Karlsruhe Hbf (10:30 Uhr) - Bruchsal (11:00)</p>"
      "u" ⟨"2025-06-02T12:00:00.000Z", 2025⟩ =
      .ok ([⟨"S5", "2025-06-02", "2025-06-02T12:00:00.000Z", "123",
        "Karlsruhe Hbf", "10:30", "Bruchsal", "11:00", "u",
        "2025-06-02T12:00:00.000Z"⟩], [("S5", "123")]) ∧
    ("2025-01-01T00:00:00.000Z" : String) ≠ "2025-06-02T12:00:00.000Z" ∧
    ("2025-01-01" : String) ≠ "2025-06-02" :=
  ⟨rfl, rfl, by decide, by decide⟩

end KVV
